import Mathlib

/-! kube-burner, `pkg/measurements/common.go`

A shallow embedding of the threshold validator (`VerifyMeasurementConfig`), the result
router (`IndexLatencyMeasurement`), the quantile aggregator (`CalculateQuantiles`), the
measurement context factory, `getIntFromLabels` and `deployPodInNamespace`, followed by the
properties established about them.

Conventions of the embedding:

* a Go `map[string]V` is an association list `GoMap V`; a list stands for a map when its
  keys are pairwise distinct (`GoMap.WellFormed`);
* Go leaves the order of a `range` over a map unspecified.  A map received as an input is
  visited in the order of its list; a map that is visited several times, or that is built
  inside the function, is visited in the order chosen by an explicit `RangeOrder` argument;
* a Go `error` is an `Option String` carrying the message, `none` being `nil`;
* a value of the interface type `indexers.Indexer` is an `Option W`, `none` being the nil
  interface; calling `Index` on it panics.
-/

namespace Measurements

/-! ## Go maps -/

/-- A Go `map[string]V`, as the list of its entries. -/
abbrev GoMap (V : Type) := List (String × V)

namespace GoMap

variable {V : Type}

/-- The keys of the map, in the order of the list. -/
def keys (m : GoMap V) : List String := m.map Prod.fst

/-- The list has no key twice, that is, it stands for a map. -/
def WellFormed (m : GoMap V) : Prop := (keys m).Nodup

instance (m : GoMap V) : Decidable (WellFormed m) := by unfold WellFormed; infer_instance

/-- The two-valued lookup `v, ok := m[k]`: `none` when `ok` is false. -/
def find : GoMap V → String → Option V
  | [], _ => none
  | (k', v) :: rest, k => if k' = k then some v else find rest k

/-- The `ok` of `_, ok := m[k]`. -/
def has (m : GoMap V) (k : String) : Bool := (find m k).isSome

/-- The assignment `m[k] = v`: the entry of `k` is replaced, or a new entry is added. -/
def set : GoMap V → String → V → GoMap V
  | [], k, v => [(k, v)]
  | (k', v') :: rest, k, v => if k' = k then (k, v) :: rest else (k', v') :: set rest k v

end GoMap

/-- The order in which one `range` loop (or `maps.Keys`) visits the entries of a map. -/
abbrev RangeOrder (V : Type) := GoMap V → GoMap V

/-- A range order is valid when it visits every entry of the map exactly once. -/
def RangeOrder.Valid {V : Type} (r : RangeOrder V) : Prop := ∀ m, (r m).Perm m

/-! ## Threshold validator -/

/-- The `types.LatencyThreshold` row (`Threshold` is a `time.Duration`, an integer). -/
structure LatencyThreshold where
  ConditionType : String
  Metric : String
  Threshold : Int
deriving DecidableEq, Repr

/-- The fields of `types.Measurement` that `common.go` reads. -/
structure Measurement where
  LatencyThresholds : List LatencyThreshold
  TimeseriesIndexer : String
  QuantilesIndexer : String
deriving DecidableEq, Repr

/-- The package variable `supportedLatencyMetricsMap`. -/
def supportedLatencyMetricsMap : GoMap Unit :=
  [("P99", ()), ("P95", ()), ("P50", ()), ("Avg", ()), ("Max", ())]

/-- The message of `fmt.Errorf("unsupported condition type in measurement: %s", c)`. -/
def errUnsupportedCondition (conditionType : String) : String :=
  "unsupported condition type in measurement: " ++ conditionType

/-- The message of
`fmt.Errorf("unsupported metric %s in measurement, supported are: %s", m, strings.Join(keys, ", "))`. -/
def errUnsupportedMetric (metric : String) (supported : List String) : String :=
  "unsupported metric " ++ metric ++ " in measurement, supported are: " ++
    ", ".intercalate supported

/-- The loop of `VerifyMeasurementConfig` over the thresholds still to be checked. -/
def verifyThresholds (keysOrder : RangeOrder Unit) (supportedConditions : GoMap Unit) :
    List LatencyThreshold → Option String
  | [] => none
  | th :: rest =>
    if !supportedConditions.has th.ConditionType then
      some (errUnsupportedCondition th.ConditionType)
    else if !supportedLatencyMetricsMap.has th.Metric then
      some (errUnsupportedMetric th.Metric (keysOrder supportedLatencyMetricsMap).keys)
    else
      verifyThresholds keysOrder supportedConditions rest

/-- `VerifyMeasurementConfig(config, supportedConditions)`; `keysOrder` is the order in which
`maps.Keys` lists the supported metrics in the error message. -/
def VerifyMeasurementConfig (keysOrder : RangeOrder Unit) (config : Measurement)
    (supportedConditions : GoMap Unit) : Option String :=
  verifyThresholds keysOrder supportedConditions config.LatencyThresholds

/-- The five supported statistics, as the specification lists them. -/
def supportedMetricNames : List String := ["P99", "P95", "P50", "Avg", "Max"]

/-- A threshold passes both membership checks. -/
def thresholdOk (supportedConditions : GoMap Unit) (th : LatencyThreshold) : Prop :=
  supportedConditions.has th.ConditionType = true ∧ th.Metric ∈ supportedMetricNames

/-- The message `msg` begins with the text `pre`. -/
def beginsWith (pre msg : String) : Prop := pre.data <+: msg.data

/-! ## Result router -/

/-- The eight metric-name constants of the package that `IndexLatencyMeasurement` compares
with; they are declared in other files of the package, so they are taken as a parameter. -/
structure MetricNames where
  podLatencyMeasurement : String
  svcLatencyMeasurement : String
  nodeLatencyMeasurement : String
  pvcLatencyMeasurement : String
  podLatencyQuantilesMeasurement : String
  svcLatencyQuantilesMeasurement : String
  nodeLatencyQuantilesMeasurement : String
  pvcLatencyQuantilesMeasurement : String
deriving DecidableEq, Repr

/-- The four raw-latency names. -/
def MetricNames.raw (n : MetricNames) : List String :=
  [n.podLatencyMeasurement, n.svcLatencyMeasurement, n.nodeLatencyMeasurement,
    n.pvcLatencyMeasurement]

/-- The four quantile-summary names. -/
def MetricNames.quantiles (n : MetricNames) : List String :=
  [n.podLatencyQuantilesMeasurement, n.svcLatencyQuantilesMeasurement,
    n.nodeLatencyQuantilesMeasurement, n.pvcLatencyQuantilesMeasurement]

/-- The eight constants are pairwise distinct. -/
def MetricNames.Distinct (n : MetricNames) : Prop := (n.raw ++ n.quantiles).Nodup

instance (n : MetricNames) : Decidable n.Distinct := by
  unfold MetricNames.Distinct; infer_instance

/-- An assignment of the eight constants, each named after itself, used for evaluation. -/
def sampleNames : MetricNames :=
  { podLatencyMeasurement := "podLatencyMeasurement"
    svcLatencyMeasurement := "svcLatencyMeasurement"
    nodeLatencyMeasurement := "nodeLatencyMeasurement"
    pvcLatencyMeasurement := "pvcLatencyMeasurement"
    podLatencyQuantilesMeasurement := "podLatencyQuantilesMeasurement"
    svcLatencyQuantilesMeasurement := "svcLatencyQuantilesMeasurement"
    nodeLatencyQuantilesMeasurement := "nodeLatencyQuantilesMeasurement"
    pvcLatencyQuantilesMeasurement := "pvcLatencyQuantilesMeasurement" }

/-- The `indexers.IndexingOpts` value, of which the router sets `MetricName` only. -/
structure IndexingOpts where
  MetricName : String
deriving DecidableEq, Repr

/-- One call `indexer.Index(data, opts)`: the writer it is made on and its arguments.  `W` is
the type of the (non-nil) writers, `D` the type of the documents. -/
structure IndexCall (W D : Type) where
  writer : W
  data : List D
  opts : IndexingOpts
deriving DecidableEq, Repr

/-- The severity of a log line. -/
inductive Level where
  | debug
  | info
  | error
deriving DecidableEq, Repr

/-- What the router does that can be seen from outside: it logs and it calls `Index`. -/
inductive Event (W D : Type) where
  | log (level : Level) (msg : String)
  | index (call : IndexCall W D)
deriving DecidableEq, Repr

/-- The run of a piece of code: the events in order, and whether the code ran to its end.
`completed = false` is the run-time panic of a method call on a nil interface value, which
unwinds the whole function. -/
structure Exec (W D : Type) where
  trace : List (Event W D)
  completed : Bool
deriving DecidableEq, Repr

/-- Sequencing: `b` runs after `a` unless `a` panicked. -/
def Exec.andThen {W D : Type} (a b : Exec W D) : Exec W D :=
  if a.completed then ⟨a.trace ++ b.trace, b.completed⟩ else a

/-- The Go loop `for _, x := range xs { body x }` over the visiting order `xs`. -/
def forRange {W D α : Type} (body : α → Exec W D) : List α → Exec W D
  | [] => ⟨[], true⟩
  | x :: rest => (body x).andThen (forRange body rest)

/-- The closure `indexDocuments(indexer, metricName, data)`.  `indexer` is the interface value,
`none` being nil; `respond w data opts` is the pair `(resp, err)` that `w.Index(data, opts)`
returns. -/
def indexDocuments {W D : Type} (respond : W → List D → IndexingOpts → String × Option String)
    (jobName : String) (indexer : Option W) (metricName : String) (data : List D) : Exec W D :=
  let indexingOpts : IndexingOpts := { MetricName := metricName ++ "-" ++ jobName }
  let logged : List (Event W D) :=
    [Event.log Level.info ("Indexing metric " ++ metricName),
     Event.log Level.debug
       ("Indexing [" ++ toString data.length ++ "] documents: " ++ metricName)]
  match indexer with
  | none => ⟨logged, false⟩
  | some w =>
    match respond w data indexingOpts with
    | (_, some err) =>
      ⟨logged ++ [Event.index ⟨w, data, indexingOpts⟩, Event.log Level.error err], true⟩
    | (resp, none) =>
      ⟨logged ++ [Event.index ⟨w, data, indexingOpts⟩, Event.log Level.info resp], true⟩

/-- The single-valued map index `indexerList[name]`: the interface value stored under
`name`, which may be nil, or the zero value nil when `name` is not a key. -/
def lookupIndexer {W : Type} (indexerList : GoMap (Option W)) (name : String) : Option W :=
  match indexerList.find name with
  | some indexer => indexer
  | none => none

/-- The body of the loop of `IndexLatencyMeasurement` for one entry of `metricMap`.  The
registry `indexerList` stores interface values, `none` being a nil `indexers.Indexer`. -/
def routeMetric {W D : Type} (names : MetricNames)
    (respond : W → List D → IndexingOpts → String × Option String)
    (rangeIndexers : String → RangeOrder (Option W)) (config : Measurement) (jobName : String)
    (indexerList : GoMap (Option W)) (metricName : String) (data : List D) : Exec W D :=
  if config.TimeseriesIndexer ≠ "" ∧
      (metricName = names.podLatencyMeasurement ∨ metricName = names.svcLatencyMeasurement ∨
        metricName = names.nodeLatencyMeasurement ∨ metricName = names.pvcLatencyMeasurement) then
    indexDocuments respond jobName (lookupIndexer indexerList config.TimeseriesIndexer)
      metricName data
  else if config.QuantilesIndexer ≠ "" ∧
      (metricName = names.podLatencyQuantilesMeasurement ∨
        metricName = names.svcLatencyQuantilesMeasurement ∨
        metricName = names.nodeLatencyQuantilesMeasurement ∨
        metricName = names.pvcLatencyQuantilesMeasurement) then
    indexDocuments respond jobName (lookupIndexer indexerList config.QuantilesIndexer)
      metricName data
  else
    forRange (fun entry => indexDocuments respond jobName entry.2 metricName data)
      (rangeIndexers metricName indexerList)

/-- `IndexLatencyMeasurement(config, jobName, metricMap, indexerList)`.  `metricMap` is visited
in the order of its list; `rangeIndexers metricName` is the order in which the broadcast for
`metricName` visits the registry. -/
def IndexLatencyMeasurement {W D : Type} (names : MetricNames)
    (respond : W → List D → IndexingOpts → String × Option String)
    (rangeIndexers : String → RangeOrder (Option W)) (config : Measurement) (jobName : String)
    (metricMap : GoMap (List D)) (indexerList : GoMap (Option W)) : Exec W D :=
  forRange (fun entry => routeMetric names respond rangeIndexers config jobName indexerList
    entry.1 entry.2) metricMap

/-- The `Index` calls of a trace, in order. -/
def indexCalls {W D : Type} (trace : List (Event W D)) : List (IndexCall W D) :=
  trace.filterMap (fun e => match e with
    | Event.index c => some c
    | Event.log _ _ => none)

/-- The `Index` calls of a trace made for the metric `metricName` of job `jobName`, that is,
those on the stream `metricName-jobName`. -/
def callsFor {W D : Type} (metricName jobName : String) (trace : List (Event W D)) :
    List (IndexCall W D) :=
  (indexCalls trace).filter (fun c => c.opts.MetricName = metricName ++ "-" ++ jobName)

/-- Routing rule 1 of the specification applies to `metricName`. -/
def rule1 (names : MetricNames) (config : Measurement) (metricName : String) : Prop :=
  config.TimeseriesIndexer ≠ "" ∧ metricName ∈ names.raw

/-- Routing rule 2 of the specification applies to `metricName`: rule 1 does not, the
quantiles indexer is set and the name is a quantile-summary one. -/
def rule2 (names : MetricNames) (config : Measurement) (metricName : String) : Prop :=
  ¬ rule1 names config metricName ∧ config.QuantilesIndexer ≠ "" ∧ metricName ∈ names.quantiles

instance (names : MetricNames) (config : Measurement) (m : String) :
    Decidable (rule1 names config m) := by unfold rule1; infer_instance

instance (names : MetricNames) (config : Measurement) (m : String) :
    Decidable (rule2 names config m) := by unfold rule2; infer_instance

/-- The interface values that the routing rule of the specification selects for
`metricName`: the one found under the time-series name (rule 1), the one found under the
quantiles name (rule 2), or every value of the registry (rule 3).  A selected value is `none`
when the name is not a key of the registry or when the registry stores nil. -/
def selectedWriters {W : Type} (names : MetricNames)
    (rangeIndexers : String → RangeOrder (Option W)) (config : Measurement)
    (indexerList : GoMap (Option W)) (metricName : String) : List (Option W) :=
  if rule1 names config metricName then [lookupIndexer indexerList config.TimeseriesIndexer]
  else if rule2 names config metricName then [lookupIndexer indexerList config.QuantilesIndexer]
  else (rangeIndexers metricName indexerList).map Prod.snd

/-- The call made on the writer `w` for one entry of `metricMap`: on the stream
`metricName-jobName`, carrying the documents of the entry. -/
def callOn {W D : Type} (jobName : String) (entry : String × List D) (w : W) : IndexCall W D :=
  ⟨w, entry.2, ⟨entry.1 ++ "-" ++ jobName⟩⟩

/-- The calls that the specification expects for one entry of `metricMap`: one per selected
writer that is not nil. -/
def expectedCalls {W D : Type} (names : MetricNames)
    (rangeIndexers : String → RangeOrder (Option W)) (config : Measurement) (jobName : String)
    (indexerList : GoMap (Option W)) (entry : String × List D) : List (IndexCall W D) :=
  (selectedWriters names rangeIndexers config indexerList entry.1).filterMap
    (fun indexer => indexer.map (callOn jobName entry))

/-- Every interface value on which the routing calls `Index` for a key of `metricMap` is a
writer and not nil: the value found under the time-series name for a key of rule 1, the value
found under the quantiles name for a key of rule 2, and every value stored in the registry when
some key is broadcast. -/
def Resolved {W D : Type} (names : MetricNames) (config : Measurement)
    (metricMap : GoMap (List D)) (indexerList : GoMap (Option W)) : Prop :=
  ∀ m ∈ metricMap.keys,
    (rule1 names config m →
      (lookupIndexer indexerList config.TimeseriesIndexer).isSome = true) ∧
    (rule2 names config m →
      (lookupIndexer indexerList config.QuantilesIndexer).isSome = true) ∧
    (¬ rule1 names config m → ¬ rule2 names config m →
      ∀ entry ∈ indexerList, entry.2.isSome = true)

instance {W D : Type} (names : MetricNames) (config : Measurement)
    (metricMap : GoMap (List D)) (indexerList : GoMap (Option W)) :
    Decidable (Resolved names config metricMap indexerList) := by
  unfold Resolved; infer_instance

/-! ## Quantile aggregator -/

/-- The `metrics.LatencyQuantiles` record: the four fields that `CalculateQuantiles` stamps,
and `summary`, standing for the fields that only `metrics.NewLatencySummary` sets (the quantile
name, the statistics, the timestamp). -/
structure LatencyQuantiles (S M : Type) where
  summary : S
  UUID : String
  Metadata : M
  MetricName : String
  JobName : String
deriving DecidableEq, Repr

/-- The statement `quantileMap[condition] = append(quantileMap[condition], latency)`. -/
def appendLatency {L : Type} (quantileMap : GoMap (List L)) (entry : String × L) :
    GoMap (List L) :=
  quantileMap.set entry.1 (((quantileMap.find entry.1).getD []) ++ [entry.2])

/-- The first loop of `CalculateQuantiles`: the map from a condition to its latencies. -/
def buildQuantileMap {R L : Type} (getLatency : R → GoMap L) (normLatencies : List R) :
    GoMap (List L) :=
  normLatencies.foldl
    (fun quantileMap normLatency => (getLatency normLatency).foldl appendLatency quantileMap) []

/-- The closure `calcSummary(name, inputLatencies)`; `NewLatencySummary` is the function of the
`metrics` package, taken as a parameter. -/
def calcSummary {L S M : Type} (NewLatencySummary : List L → String → LatencyQuantiles S M)
    (uuid jobName : String) (metadata : M) (metricName : String) (name : String)
    (inputLatencies : List L) : LatencyQuantiles S M :=
  let latencySummary := NewLatencySummary inputLatencies name
  let latencySummary := { latencySummary with UUID := uuid }
  let latencySummary := { latencySummary with Metadata := metadata }
  let latencySummary := { latencySummary with MetricName := metricName }
  let latencySummary := { latencySummary with JobName := jobName }
  latencySummary

/-- `CalculateQuantiles(uuid, jobName, metadata, normLatencies, getLatency, metricName)`.  The
map returned by `getLatency` is visited in the order of its list; `rangeQuantiles` is the order
in which the second loop visits `quantileMap`. -/
def CalculateQuantiles {R L S M : Type}
    (NewLatencySummary : List L → String → LatencyQuantiles S M)
    (rangeQuantiles : RangeOrder (List L)) (uuid jobName : String) (metadata : M)
    (normLatencies : List R) (getLatency : R → GoMap L) (metricName : String) :
    List (LatencyQuantiles S M) :=
  (rangeQuantiles (buildQuantileMap getLatency normLatencies)).map
    (fun entry => calcSummary NewLatencySummary uuid jobName metadata metricName entry.1 entry.2)

/-- The values observed for condition `c`, as the specification describes them: the value
`getLatency(r)[c]` of every record `r` whose map has the key `c`, in the order of the records. -/
def observedValues {R L : Type} (getLatency : R → GoMap L) (normLatencies : List R)
    (c : String) : List L :=
  normLatencies.filterMap (fun r => (getLatency r).find c)

/-- The condition `c` is a key of the map of at least one record. -/
def Observed {R L : Type} (getLatency : R → GoMap L) (normLatencies : List R) (c : String) :
    Prop :=
  ∃ r ∈ normLatencies, c ∈ (getLatency r).keys

/-- The distinct condition names that occur as a key of the map of at least one record, as
the specification counts them. -/
def distinctConditions {R L : Type} (getLatency : R → GoMap L) (normLatencies : List R) :
    List String :=
  (normLatencies.flatMap (fun r => (getLatency r).keys)).dedup

/-! ## Measurement context factory -/

/-- The fields of `config.GlobalConfig` that the factory reads. -/
structure GlobalConfig where
  UUID : String
  RUNID : String
deriving DecidableEq, Repr

/-- The field of `config.Spec` that the factory reads. -/
structure Spec where
  GlobalConfig : GlobalConfig
deriving DecidableEq, Repr

/-- The struct `BaseMeasurementFactory`; `M` is the type of the metadata map. -/
structure BaseMeasurementFactory (M : Type) where
  Config : Measurement
  Uuid : String
  Runid : String
  Metadata : M
deriving DecidableEq, Repr

/-- The struct `BaseMeasurement`; `J`, `C` and `K` are the types of the job configuration
pointer, of the cluster client handle and of the REST configuration pointer. -/
structure BaseMeasurement (M J C K : Type) where
  Config : Measurement
  Uuid : String
  Runid : String
  JobConfig : J
  ClientSet : C
  RestConfig : K
  Metadata : M
deriving DecidableEq, Repr

/-- `NewBaseMeasurementFactory(configSpec, measurement, metadata)`. -/
def NewBaseMeasurementFactory {M : Type} (configSpec : Spec) (measurement : Measurement)
    (metadata : M) : BaseMeasurementFactory M :=
  { Config := measurement
    Uuid := configSpec.GlobalConfig.UUID
    Runid := configSpec.GlobalConfig.RUNID
    Metadata := metadata }

/-- The method `bmf.NewBaseLatency(jobConfig, clientSet, restConfig)`, of value receiver
`bmf`. -/
def BaseMeasurementFactory.NewBaseLatency {M J C K : Type} (bmf : BaseMeasurementFactory M)
    (jobConfig : J) (clientSet : C) (restConfig : K) : BaseMeasurement M J C K :=
  { Config := bmf.Config
    Uuid := bmf.Uuid
    Runid := bmf.Runid
    JobConfig := jobConfig
    ClientSet := clientSet
    RestConfig := restConfig
    Metadata := bmf.Metadata }

/-! ## Label parsing -/

/-- `getIntFromLabels(labels, key)`.  `atoi s` is the pair `(val, err)` that `strconv.Atoi(s)`
returns. -/
def getIntFromLabels (atoi : String → Int × Option String) (labels : GoMap String)
    (key : String) : Int :=
  match labels.find key with
  | some strVal =>
    match atoi strVal with
    | (val, none) => val
    | (_, some _) => 0
  | none => 0

/-- The function `strconv.Atoi` of the Go standard library for a 64-bit `int`, after its
documentation: an optional sign, then one or more decimal digits; a value outside the range of
`int` is reported as a range error together with the nearest bound.  Of the `*NumError`
returned, the model keeps the text of its `Err` field (`ErrSyntax` or `ErrRange`). -/
def Atoi (s : String) : Int × Option String :=
  let signed : Bool × List Char :=
    match s.data with
    | '-' :: rest => (true, rest)
    | '+' :: rest => (false, rest)
    | cs => (false, cs)
  if signed.2 = [] ∨ signed.2.all Char.isDigit = false then
    (0, some "invalid syntax")
  else
    let n : Nat := signed.2.foldl (fun acc c => 10 * acc + (c.toNat - '0'.toNat)) 0
    let v : Int := if signed.1 then -(n : Int) else (n : Int)
    if v < -(2 ^ 63) then
      (-(2 ^ 63), some "value out of range")
    else if 2 ^ 63 - 1 < v then
      (2 ^ 63 - 1, some "value out of range")
    else
      (v, none)

/-! ## Pod deployment helper -/

/-- An error returned by a cluster API call: its message, and what `errors.IsAlreadyExists`
answers on it. -/
structure ApiError where
  message : String
  isAlreadyExists : Bool
deriving DecidableEq, Repr

/-- The phases of a pod (`corev1.PodPhase`). -/
inductive PodPhase where
  | Pending
  | Running
  | Succeeded
  | Failed
  | Unknown
deriving DecidableEq, Repr

/-- What one call `Pods(namespace).Get(...)` returns: an error, or the pod with its phase. -/
inductive GetResult where
  | failed (err : ApiError)
  | pod (phase : PodPhase)
deriving DecidableEq, Repr

/-- The condition function that `deployPodInNamespace` passes to
`wait.PollUntilContextCancel`: the pair `(done, err)` it returns when `Get` returned `got`. -/
def podRunning (got : GetResult) : Bool × Option ApiError :=
  match got with
  | GetResult.failed err => (true, some err)
  | GetResult.pod phase => if phase ≠ PodPhase.Running then (false, none) else (true, none)

/-- The loop of `wait.PollUntilContextCancel(ctx, interval, true, condition)` on a context that
is never cancelled: the condition is evaluated until it reports an error, which is returned, or
`done`, upon which nil is returned.  `gets i` is what the `i`-th `Get` returns and `fuel` bounds
the number of polls; the result is `none` when the loop is still polling after `fuel` polls,
and `some err` when it has returned `err` (`some none` being a nil error). -/
def pollPod (gets : Nat → GetResult) : Nat → Nat → Option (Option ApiError)
  | 0, _ => none
  | fuel + 1, i =>
    match podRunning (gets i) with
    | (_, some err) => some (some err)
    | (true, none) => some none
    | (false, none) => pollPod gets fuel (i + 1)

/-- `deployPodInNamespace(clientSet, namespace, podName, image, command)`, as a function of what
the cluster returns: `createNamespace` is the error of `kutil.CreateNamespace`, `createPod` the
error of `Pods(namespace).Create`, `gets` the results of the successive `Get` calls.  The
result is the returned error, or `none` when the function is still polling after `fuel`
polls. -/
def deployPodInNamespace (createNamespace createPod : Option ApiError) (gets : Nat → GetResult)
    (fuel : Nat) : Option (Option ApiError) :=
  match createNamespace with
  | some err => some (some err)
  | none =>
    match createPod with
    | some err =>
      if err.isAlreadyExists then pollPod gets fuel 0 else some (some err)
    | none => pollPod gets fuel 0

/-! ### Lemmas on the validator -/

theorem has_supportedLatencyMetricsMap (m : String) :
    supportedLatencyMetricsMap.has m = true ↔ m ∈ supportedMetricNames := by
  unfold supportedLatencyMetricsMap supportedMetricNames GoMap.has
  simp only [GoMap.find]
  by_cases h1 : "P99" = m
  · simp [h1]
  by_cases h2 : "P95" = m
  · simp [h2]
  by_cases h3 : "P50" = m
  · simp [h3]
  by_cases h4 : "Avg" = m
  · simp [h4]
  by_cases h5 : "Max" = m
  · simp [h5]
  simp only [h1, h2, h3, h4, h5, if_false, Option.isSome_none, List.mem_cons, List.mem_singleton,
    List.mem_nil_iff, or_false, false_iff, not_or, Bool.false_eq_true]
  exact ⟨Ne.symm h1, Ne.symm h2, Ne.symm h3, Ne.symm h4, Ne.symm h5⟩

theorem verifyThresholds_of_all_ok (keysOrder : RangeOrder Unit) (sc : GoMap Unit)
    (ths : List LatencyThreshold) (h : ∀ th ∈ ths, thresholdOk sc th) :
    verifyThresholds keysOrder sc ths = none := by
  induction ths with
  | nil => rfl
  | cons th rest ih =>
    have hth := h th (List.mem_cons_self _ _)
    have hm := (has_supportedLatencyMetricsMap th.Metric).2 hth.2
    simp only [verifyThresholds, hth.1, hm, Bool.not_true, Bool.false_eq_true, if_false]
    exact ih (fun u hu => h u (List.mem_cons_of_mem _ hu))

theorem verifyThresholds_append_ok (keysOrder : RangeOrder Unit) (sc : GoMap Unit)
    (pre rest : List LatencyThreshold) (h : ∀ th ∈ pre, thresholdOk sc th) :
    verifyThresholds keysOrder sc (pre ++ rest) = verifyThresholds keysOrder sc rest := by
  induction pre with
  | nil => rfl
  | cons th pre ih =>
    have hth := h th (List.mem_cons_self _ _)
    have hm := (has_supportedLatencyMetricsMap th.Metric).2 hth.2
    simp only [List.cons_append, verifyThresholds, hth.1, hm, Bool.not_true, Bool.false_eq_true,
      if_false]
    exact ih (fun u hu => h u (List.mem_cons_of_mem _ hu))

theorem verifyThresholds_isSome_of_violation (keysOrder : RangeOrder Unit) (sc : GoMap Unit)
    (ths : List LatencyThreshold) (h : ∃ th ∈ ths, ¬ thresholdOk sc th) :
    (verifyThresholds keysOrder sc ths).isSome = true := by
  induction ths with
  | nil => obtain ⟨th, hth, _⟩ := h; cases hth
  | cons th rest ih =>
    unfold verifyThresholds
    by_cases hc : sc.has th.ConditionType = true
    · by_cases hm : supportedLatencyMetricsMap.has th.Metric = true
      · simp only [hc, hm, Bool.not_true, Bool.false_eq_true, if_false]
        apply ih
        obtain ⟨u, hu, hbad⟩ := h
        rcases List.mem_cons.1 hu with rfl | hu
        · exact absurd ⟨hc, (has_supportedLatencyMetricsMap _).1 hm⟩ hbad
        · exact ⟨u, hu, hbad⟩
      · simp [hc, hm]
    · simp [hc]

theorem beginsWith_errUnsupportedMetric (m : String) (ks : List String) :
    beginsWith "unsupported metric" (errUnsupportedMetric m ks) := by
  unfold beginsWith errUnsupportedMetric
  simp only [String.data_append, List.append_assoc]
  exact (show "unsupported metric".data <+: "unsupported metric ".data by decide).trans
    (List.prefix_append _ _)

theorem not_beginsWith_errUnsupportedCondition (c : String) :
    ¬ beginsWith "unsupported metric" (errUnsupportedCondition c) := by
  unfold beginsWith errUnsupportedCondition
  simp only [String.data_append]
  intro h
  have h2 := List.prefix_of_prefix_length_le h
    (List.prefix_append "unsupported condition type in measurement: ".data c.data) (by decide)
  revert h2
  decide

/-! ## The validator: claims -/

/-- C1: when every threshold of the configuration has its metric among P99, P95, P50, Avg, Max
and its condition type in the supported set, `VerifyMeasurementConfig` returns nil; an empty
threshold list is such a configuration. -/
theorem VerifyMeasurementConfig_accepts (keysOrder : RangeOrder Unit) (config : Measurement)
    (supportedConditions : GoMap Unit)
    (h : ∀ th ∈ config.LatencyThresholds,
      th.Metric ∈ ["P99", "P95", "P50", "Avg", "Max"] ∧
        supportedConditions.has th.ConditionType = true) :
    VerifyMeasurementConfig keysOrder config supportedConditions = none :=
  verifyThresholds_of_all_ok keysOrder supportedConditions config.LatencyThresholds
    (fun th hth => ⟨(h th hth).2, (h th hth).1⟩)

/-- C1, evaluated: a configuration with two valid thresholds, and the empty one, are accepted. -/
theorem VerifyMeasurementConfig_accepts_witness :
    VerifyMeasurementConfig (fun m => m)
        ⟨[⟨"Ready", "P99", 5000⟩, ⟨"PodScheduled", "Avg", 100⟩], "", ""⟩
        [("Ready", ()), ("PodScheduled", ())] = none ∧
      VerifyMeasurementConfig (fun m => m) ⟨[], "es", ""⟩ [] = none :=
  ⟨VerifyMeasurementConfig_accepts _ _ _ (by decide),
   VerifyMeasurementConfig_accepts _ _ _ (by simp)⟩

/-- C2: `VerifyMeasurementConfig` returns a non-nil error exactly when some threshold has a
condition type outside the supported set or a metric that is none of the five strings P99, P95,
P50, Avg, Max (compared as exact strings). -/
theorem VerifyMeasurementConfig_rejects_iff (keysOrder : RangeOrder Unit) (config : Measurement)
    (supportedConditions : GoMap Unit) :
    (∃ e, VerifyMeasurementConfig keysOrder config supportedConditions = some e) ↔
      ∃ th ∈ config.LatencyThresholds,
        supportedConditions.has th.ConditionType = false ∨
          th.Metric ∉ ["P99", "P95", "P50", "Avg", "Max"] := by
  constructor
  · rintro ⟨e, he⟩
    by_contra hno
    have hall : ∀ th ∈ config.LatencyThresholds, thresholdOk supportedConditions th := by
      intro th hth
      by_contra hbad
      apply hno
      refine ⟨th, hth, ?_⟩
      by_cases hc : supportedConditions.has th.ConditionType = true
      · exact Or.inr (fun hm => hbad ⟨hc, hm⟩)
      · exact Or.inl (by simpa using hc)
    have := verifyThresholds_of_all_ok keysOrder supportedConditions _ hall
    rw [VerifyMeasurementConfig, this] at he
    cases he
  · rintro ⟨th, hth, hbad⟩
    have hsome := verifyThresholds_isSome_of_violation keysOrder supportedConditions
      config.LatencyThresholds ⟨th, hth, fun hok => by
        rcases hbad with hc | hm
        · rw [hok.1] at hc; cases hc
        · exact hm hok.2⟩
    exact Option.isSome_iff_exists.1 hsome

/-- C3, as stated, fails: the only threshold has metric P999 and a condition type outside the
(empty) supported set, and the error returned is the unsupported-condition one. -/
theorem VerifyMeasurementConfig_P999_counterexample :
    (∃ th ∈ (⟨[⟨"Ready", "P999", 0⟩], "", ""⟩ : Measurement).LatencyThresholds,
        th.Metric = "P999") ∧
      VerifyMeasurementConfig (fun m => m) ⟨[⟨"Ready", "P999", 0⟩], "", ""⟩ [] =
        some "unsupported condition type in measurement: Ready" ∧
      ¬ beginsWith "unsupported metric" "unsupported condition type in measurement: Ready" := by
  refine ⟨⟨_, List.mem_singleton.2 rfl, rfl⟩, by decide, ?_⟩
  unfold beginsWith
  decide

/-- C3, amended: a configuration with a threshold `t` of metric P999 is always rejected with a
non-nil error; when the condition type of `t` and of every threshold before it is supported,
the error is the unsupported-metric one, its message beginning with "unsupported metric" and
naming a metric outside the five supported ones. -/
theorem VerifyMeasurementConfig_P999 (keysOrder : RangeOrder Unit) (config : Measurement)
    (supportedConditions : GoMap Unit) (pre post : List LatencyThreshold) (t : LatencyThreshold)
    (hsplit : config.LatencyThresholds = pre ++ t :: post) (ht : t.Metric = "P999") :
    (∃ e, VerifyMeasurementConfig keysOrder config supportedConditions = some e) ∧
      ((∀ u ∈ pre ++ [t], supportedConditions.has u.ConditionType = true) →
        ∃ m, m ∉ ["P99", "P95", "P50", "Avg", "Max"] ∧
          VerifyMeasurementConfig keysOrder config supportedConditions =
            some (errUnsupportedMetric m (keysOrder supportedLatencyMetricsMap).keys) ∧
          beginsWith "unsupported metric"
            (errUnsupportedMetric m (keysOrder supportedLatencyMetricsMap).keys)) := by
  have htbad : t.Metric ∉ supportedMetricNames := by rw [ht]; decide
  constructor
  · apply Option.isSome_iff_exists.1
    rw [VerifyMeasurementConfig, hsplit]
    exact verifyThresholds_isSome_of_violation _ _ _
      ⟨t, List.mem_append_right _ (List.mem_cons_self _ _), fun hok => htbad hok.2⟩
  · intro hc
    rw [VerifyMeasurementConfig, hsplit]
    clear hsplit
    induction pre with
    | nil =>
      have hct := hc t (by simp)
      have hm : supportedLatencyMetricsMap.has t.Metric = false := by
        cases h : supportedLatencyMetricsMap.has t.Metric
        · rfl
        · exact absurd ((has_supportedLatencyMetricsMap _).1 h) htbad
      exact ⟨t.Metric, htbad, by simp [verifyThresholds, hct, hm],
        beginsWith_errUnsupportedMetric _ _⟩
    | cons u pre ih =>
      have hcu := hc u (by simp)
      cases hm : supportedLatencyMetricsMap.has u.Metric
      · refine ⟨u.Metric, ?_, by simp [verifyThresholds, hcu, hm],
          beginsWith_errUnsupportedMetric _ _⟩
        intro hin
        rw [(has_supportedLatencyMetricsMap _).2 hin] at hm
        cases hm
      · obtain ⟨m, hm1, hm2, hm3⟩ := ih (fun v hv => hc v (by
          rcases List.mem_append.1 hv with hv | hv
          · exact List.mem_append_left _ (List.mem_cons_of_mem _ hv)
          · exact List.mem_append_right _ hv))
        refine ⟨m, hm1, ?_, hm3⟩
        simpa [verifyThresholds, hcu, hm] using hm2

/-- C3 amended, evaluated: the P999 threshold comes second, after a valid one, with both
condition types supported. -/
theorem VerifyMeasurementConfig_P999_witness :
    (∃ e, VerifyMeasurementConfig (fun m => m)
        ⟨[⟨"Ready", "P99", 1⟩, ⟨"Ready", "P999", 2⟩, ⟨"Bogus", "P50", 3⟩], "", ""⟩
        [("Ready", ())] = some e) ∧
      ((∀ u ∈ [(⟨"Ready", "P99", 1⟩ : LatencyThreshold)] ++ [⟨"Ready", "P999", 2⟩],
          GoMap.has [("Ready", ())] u.ConditionType = true) →
        ∃ m, m ∉ ["P99", "P95", "P50", "Avg", "Max"] ∧
          VerifyMeasurementConfig (fun m => m)
            ⟨[⟨"Ready", "P99", 1⟩, ⟨"Ready", "P999", 2⟩, ⟨"Bogus", "P50", 3⟩], "", ""⟩
            [("Ready", ())] =
            some (errUnsupportedMetric m (supportedLatencyMetricsMap).keys) ∧
          beginsWith "unsupported metric"
            (errUnsupportedMetric m (supportedLatencyMetricsMap).keys)) :=
  VerifyMeasurementConfig_P999 (fun m => m)
    ⟨[⟨"Ready", "P99", 1⟩, ⟨"Ready", "P999", 2⟩, ⟨"Bogus", "P50", 3⟩], "", ""⟩
    [("Ready", ())] [⟨"Ready", "P99", 1⟩] [⟨"Bogus", "P50", 3⟩] ⟨"Ready", "P999", 2⟩ rfl rfl

/-- C4: the validator stops at the first violating threshold `t` (every threshold before it
passing both checks): the error is the unsupported-condition one naming `t.ConditionType` when
that type is unsupported, and otherwise the unsupported-metric one naming `t.Metric`; the
thresholds after `t` do not occur in the result. -/
theorem VerifyMeasurementConfig_first_violation (keysOrder : RangeOrder Unit)
    (config : Measurement) (supportedConditions : GoMap Unit)
    (pre post : List LatencyThreshold) (t : LatencyThreshold)
    (hsplit : config.LatencyThresholds = pre ++ t :: post)
    (hpre : ∀ u ∈ pre, supportedConditions.has u.ConditionType = true ∧
      u.Metric ∈ ["P99", "P95", "P50", "Avg", "Max"])
    (ht : supportedConditions.has t.ConditionType = false ∨
      t.Metric ∉ ["P99", "P95", "P50", "Avg", "Max"]) :
    VerifyMeasurementConfig keysOrder config supportedConditions =
      some (if supportedConditions.has t.ConditionType = false then
          "unsupported condition type in measurement: " ++ t.ConditionType
        else
          "unsupported metric " ++ t.Metric ++ " in measurement, supported are: " ++
            ", ".intercalate (keysOrder supportedLatencyMetricsMap).keys) := by
  rw [VerifyMeasurementConfig, hsplit, verifyThresholds_append_ok _ _ _ _ hpre]
  cases hc : supportedConditions.has t.ConditionType
  · simp [verifyThresholds, hc, errUnsupportedCondition]
  · have hm : supportedLatencyMetricsMap.has t.Metric = false := by
      cases h : supportedLatencyMetricsMap.has t.Metric
      · rfl
      · rcases ht with ht | ht
        · rw [hc] at ht; cases ht
        · exact absurd ((has_supportedLatencyMetricsMap _).1 h) ht
    simp [verifyThresholds, hc, hm, errUnsupportedMetric]

/-- C4, evaluated: the second threshold is the first violating one (unsupported condition and
unsupported metric), the third one violates too and is never looked at. -/
theorem VerifyMeasurementConfig_first_violation_witness :
    VerifyMeasurementConfig (fun m => m)
        ⟨[⟨"Ready", "P99", 1⟩, ⟨"Bogus", "P42", 2⟩, ⟨"Ready", "P999", 3⟩], "", ""⟩
        [("Ready", ())] =
      some (if GoMap.has [("Ready", ())] "Bogus" = false then
          "unsupported condition type in measurement: " ++ "Bogus"
        else
          "unsupported metric " ++ "P42" ++ " in measurement, supported are: " ++
            ", ".intercalate (supportedLatencyMetricsMap).keys) :=
  VerifyMeasurementConfig_first_violation (fun m => m)
    ⟨[⟨"Ready", "P99", 1⟩, ⟨"Bogus", "P42", 2⟩, ⟨"Ready", "P999", 3⟩], "", ""⟩
    [("Ready", ())] [⟨"Ready", "P99", 1⟩] [⟨"Ready", "P999", 3⟩] ⟨"Bogus", "P42", 2⟩ rfl
    (by decide) (by decide)

/-! ## Lemmas on the router -/

section Router

variable {W D : Type}

theorem find_of_mem_wellFormed {V : Type} (m : GoMap V) (k : String) (v : V)
    (hwf : m.WellFormed) (hmem : (k, v) ∈ m) : m.find k = some v := by
  induction m with
  | nil => cases hmem
  | cons e rest ih =>
    have hnd : e.1 ∉ GoMap.keys rest ∧ (GoMap.keys rest).Nodup := by
      simpa [GoMap.WellFormed, GoMap.keys] using hwf
    rcases List.mem_cons.1 hmem with heq | hin
    · subst heq
      simp [GoMap.find]
    · have hne : e.1 ≠ k := fun h =>
        hnd.1 (h ▸ (List.mem_map_of_mem Prod.fst hin : k ∈ GoMap.keys rest))
      obtain ⟨k', v'⟩ := e
      simp only [GoMap.find, if_neg hne]
      exact ih hnd.2 hin

theorem mem_of_lookupIndexer (indexerList : GoMap (Option W)) (name : String) (w : W)
    (h : lookupIndexer indexerList name = some w) : (name, some w) ∈ indexerList := by
  induction indexerList with
  | nil => simp [lookupIndexer, GoMap.find] at h
  | cons e rest ih =>
    obtain ⟨a, b⟩ := e
    by_cases hak : a = name
    · subst hak
      simp only [lookupIndexer, GoMap.find, if_true] at h
      subst h
      exact List.mem_cons_self _ _
    · have hrest : lookupIndexer rest name = some w := by
        simpa [lookupIndexer, GoMap.find, hak] using h
      exact List.mem_cons_of_mem _ (ih hrest)

theorem indexCalls_append (a b : List (Event W D)) :
    indexCalls (a ++ b) = indexCalls a ++ indexCalls b := by
  simp [indexCalls]

theorem indexDocuments_some (respond : W → List D → IndexingOpts → String × Option String)
    (jobName : String) (w : W) (metricName : String) (data : List D) :
    (indexDocuments respond jobName (some w) metricName data).completed = true ∧
      indexCalls (indexDocuments respond jobName (some w) metricName data).trace =
        [⟨w, data, ⟨metricName ++ "-" ++ jobName⟩⟩] := by
  unfold indexDocuments
  rcases h : respond w data ⟨metricName ++ "-" ++ jobName⟩ with ⟨resp, _ | err⟩ <;>
    simp [h, indexCalls]

theorem indexDocuments_none (respond : W → List D → IndexingOpts → String × Option String)
    (jobName : String) (metricName : String) (data : List D) :
    (indexDocuments respond jobName none metricName data).completed = false ∧
      indexCalls (indexDocuments respond jobName none metricName data).trace = [] := by
  simp [indexDocuments, indexCalls]

theorem indexDocuments_run (respond : W → List D → IndexingOpts → String × Option String)
    (jobName : String) (indexer : Option W) (metricName : String) (data : List D) :
    (indexDocuments respond jobName indexer metricName data).completed = indexer.isSome ∧
      indexCalls (indexDocuments respond jobName indexer metricName data).trace =
        [indexer].filterMap (fun i => i.map (callOn jobName (metricName, data))) := by
  cases indexer with
  | none => simpa using indexDocuments_none respond jobName metricName data
  | some w => simpa [callOn] using indexDocuments_some respond jobName w metricName data

theorem forRange_calls_initial {α : Type} (body : α → Exec W D) (xs : List α) :
    indexCalls (forRange body xs).trace <+: xs.flatMap (fun x => indexCalls (body x).trace) := by
  induction xs with
  | nil => simp [forRange, indexCalls]
  | cons x rest ih =>
    simp only [forRange, Exec.andThen, List.flatMap_cons]
    split
    · simp only [indexCalls_append]
      exact (List.prefix_append_right_inj _).2 ih
    · exact List.prefix_append _ _

theorem forRange_completed_iff {α : Type} (body : α → Exec W D) (xs : List α) :
    (forRange body xs).completed = true ↔ ∀ x ∈ xs, (body x).completed = true := by
  induction xs with
  | nil => simp [forRange]
  | cons x rest ih =>
    simp only [forRange, Exec.andThen, List.mem_cons, forall_eq_or_imp]
    cases hc : (body x).completed
    · simp [hc]
    · simp [ih]

theorem forRange_calls_of_completed {α : Type} (body : α → Exec W D) (xs : List α)
    (h : (forRange body xs).completed = true) :
    indexCalls (forRange body xs).trace = xs.flatMap (fun x => indexCalls (body x).trace) := by
  induction xs with
  | nil => simp [forRange, indexCalls]
  | cons x rest ih =>
    have hall := (forRange_completed_iff body (x :: rest)).1 h
    have hx := hall x (List.mem_cons_self _ _)
    have hrest := (forRange_completed_iff body rest).2
      (fun y hy => hall y (List.mem_cons_of_mem _ hy))
    simp only [forRange, Exec.andThen, hx, if_true, indexCalls_append, List.flatMap_cons,
      ih hrest]

theorem forRange_congr_calls {α : Type} (body₁ body₂ : α → Exec W D) (xs : List α)
    (h : ∀ x ∈ xs, (body₁ x).completed = (body₂ x).completed ∧
      indexCalls (body₁ x).trace = indexCalls (body₂ x).trace) :
    (forRange body₁ xs).completed = (forRange body₂ xs).completed ∧
      indexCalls (forRange body₁ xs).trace = indexCalls (forRange body₂ xs).trace := by
  induction xs with
  | nil => simp [forRange]
  | cons x rest ih =>
    have hx := h x (List.mem_cons_self _ _)
    have hr := ih (fun y hy => h y (List.mem_cons_of_mem _ hy))
    simp only [forRange, Exec.andThen]
    cases hc : (body₁ x).completed
    · have hc2 : (body₂ x).completed = false := hx.1 ▸ hc
      simp [hc, hc2, hx.2]
    · have hc2 : (body₂ x).completed = true := hx.1 ▸ hc
      simp [hc2, indexCalls_append, hx.2, hr.1, hr.2]

theorem rule1_iff (names : MetricNames) (config : Measurement) (m : String) :
    rule1 names config m ↔ (config.TimeseriesIndexer ≠ "" ∧
      (m = names.podLatencyMeasurement ∨ m = names.svcLatencyMeasurement ∨
        m = names.nodeLatencyMeasurement ∨ m = names.pvcLatencyMeasurement)) := by
  simp [rule1, MetricNames.raw]

theorem rule2_iff (names : MetricNames) (config : Measurement) (m : String) :
    rule2 names config m ↔ (¬ rule1 names config m ∧ config.QuantilesIndexer ≠ "" ∧
      (m = names.podLatencyQuantilesMeasurement ∨ m = names.svcLatencyQuantilesMeasurement ∨
        m = names.nodeLatencyQuantilesMeasurement ∨
        m = names.pvcLatencyQuantilesMeasurement)) := by
  simp [rule2, MetricNames.quantiles]

theorem routeMetric_eq (names : MetricNames)
    (respond : W → List D → IndexingOpts → String × Option String)
    (rangeIndexers : String → RangeOrder (Option W)) (config : Measurement) (jobName : String)
    (indexerList : GoMap (Option W)) (m : String) (data : List D) :
    routeMetric names respond rangeIndexers config jobName indexerList m data =
      forRange (fun indexer => indexDocuments respond jobName indexer m data)
        (selectedWriters names rangeIndexers config indexerList m) := by
  unfold routeMetric selectedWriters
  by_cases h1 : rule1 names config m
  · rw [if_pos ((rule1_iff names config m).1 h1), if_pos h1]
    simp only [forRange, Exec.andThen]
    cases (indexDocuments respond jobName (lookupIndexer indexerList config.TimeseriesIndexer)
      m data) with
    | mk trace completed => cases completed <;> simp
  · by_cases h2 : rule2 names config m
    · have h2' := (rule2_iff names config m).1 h2
      rw [if_neg (fun hc => h1 ((rule1_iff names config m).2 hc)), if_pos h2'.2, if_neg h1,
        if_pos h2]
      simp only [forRange, Exec.andThen]
      cases (indexDocuments respond jobName (lookupIndexer indexerList config.QuantilesIndexer)
        m data) with
      | mk trace completed => cases completed <;> simp
    · rw [if_neg (fun hc => h1 ((rule1_iff names config m).2 hc)),
        if_neg (fun hc => h2 ((rule2_iff names config m).2 ⟨h1, hc⟩)), if_neg h1, if_neg h2]
      generalize rangeIndexers m indexerList = ws
      induction ws with
      | nil => rfl
      | cons e rest ih => simp only [forRange, List.map_cons, ih]

theorem flatMap_indexDocuments (respond : W → List D → IndexingOpts → String × Option String)
    (jobName : String) (m : String) (data : List D) (is : List (Option W)) :
    is.flatMap (fun indexer =>
        indexCalls (indexDocuments respond jobName indexer m data).trace) =
      is.filterMap (fun i => i.map (callOn jobName (m, data))) := by
  induction is with
  | nil => rfl
  | cons i rest ih =>
    rw [List.flatMap_cons, ih, (indexDocuments_run respond jobName i m data).2]
    cases i <;> simp

theorem routeMetric_calls_initial (names : MetricNames)
    (respond : W → List D → IndexingOpts → String × Option String)
    (rangeIndexers : String → RangeOrder (Option W)) (config : Measurement) (jobName : String)
    (indexerList : GoMap (Option W)) (m : String) (data : List D) :
    indexCalls (routeMetric names respond rangeIndexers config jobName indexerList m data).trace
      <+: expectedCalls names rangeIndexers config jobName indexerList (m, data) := by
  rw [routeMetric_eq]
  have h := forRange_calls_initial (fun indexer => indexDocuments respond jobName indexer m data)
    (selectedWriters names rangeIndexers config indexerList m)
  rwa [flatMap_indexDocuments] at h

theorem routeMetric_calls_of_completed (names : MetricNames)
    (respond : W → List D → IndexingOpts → String × Option String)
    (rangeIndexers : String → RangeOrder (Option W)) (config : Measurement) (jobName : String)
    (indexerList : GoMap (Option W)) (m : String) (data : List D)
    (h : (routeMetric names respond rangeIndexers config jobName indexerList m
      data).completed = true) :
    indexCalls (routeMetric names respond rangeIndexers config jobName indexerList m data).trace
      = expectedCalls names rangeIndexers config jobName indexerList (m, data) := by
  rw [routeMetric_eq] at h ⊢
  rw [forRange_calls_of_completed _ _ h, flatMap_indexDocuments]
  rfl

theorem routeMetric_completed_iff (names : MetricNames)
    (respond : W → List D → IndexingOpts → String × Option String)
    (rangeIndexers : String → RangeOrder (Option W)) (config : Measurement) (jobName : String)
    (indexerList : GoMap (Option W)) (m : String) (data : List D) :
    (routeMetric names respond rangeIndexers config jobName indexerList m data).completed = true ↔
      ∀ indexer ∈ selectedWriters names rangeIndexers config indexerList m,
        indexer.isSome = true := by
  rw [routeMetric_eq, forRange_completed_iff]
  simp only [(indexDocuments_run respond jobName _ m data).1]

theorem routeMetric_respond_irrelevant (names : MetricNames)
    (respond₁ respond₂ : W → List D → IndexingOpts → String × Option String)
    (rangeIndexers : String → RangeOrder (Option W)) (config : Measurement) (jobName : String)
    (indexerList : GoMap (Option W)) (m : String) (data : List D) :
    (routeMetric names respond₁ rangeIndexers config jobName indexerList m data).completed =
        (routeMetric names respond₂ rangeIndexers config jobName indexerList m data).completed ∧
      indexCalls
          (routeMetric names respond₁ rangeIndexers config jobName indexerList m data).trace =
        indexCalls
          (routeMetric names respond₂ rangeIndexers config jobName indexerList m data).trace := by
  rw [routeMetric_eq, routeMetric_eq]
  apply forRange_congr_calls
  intro indexer _
  rw [(indexDocuments_run respond₁ jobName indexer m data).1,
    (indexDocuments_run respond₂ jobName indexer m data).1,
    (indexDocuments_run respond₁ jobName indexer m data).2,
    (indexDocuments_run respond₂ jobName indexer m data).2]
  exact ⟨rfl, rfl⟩

theorem selectedWriters_of_resolved (names : MetricNames)
    (rangeIndexers : String → RangeOrder (Option W)) (config : Measurement)
    (metricMap : GoMap (List D)) (indexerList : GoMap (Option W)) (m : String)
    (hvalid : ∀ k, (rangeIndexers k).Valid)
    (hres : Resolved names config metricMap indexerList) (hm : m ∈ metricMap.keys) :
    ∀ indexer ∈ selectedWriters names rangeIndexers config indexerList m,
      indexer.isSome = true := by
  obtain ⟨hr1, hr2, hr3⟩ := hres m hm
  intro indexer hin
  unfold selectedWriters at hin
  by_cases h1 : rule1 names config m
  · rw [if_pos h1, List.mem_singleton] at hin
    rw [hin]
    exact hr1 h1
  · by_cases h2 : rule2 names config m
    · rw [if_neg h1, if_pos h2, List.mem_singleton] at hin
      rw [hin]
      exact hr2 h2
    · rw [if_neg h1, if_neg h2] at hin
      obtain ⟨entry, hentry, rfl⟩ := List.mem_map.1 hin
      exact hr3 h1 h2 entry ((hvalid m indexerList).mem_iff.1 hentry)

theorem IndexLatencyMeasurement_respond_irrelevant (names : MetricNames)
    (respond₁ respond₂ : W → List D → IndexingOpts → String × Option String)
    (rangeIndexers : String → RangeOrder (Option W)) (config : Measurement) (jobName : String)
    (metricMap : GoMap (List D)) (indexerList : GoMap (Option W)) :
    (IndexLatencyMeasurement names respond₁ rangeIndexers config jobName metricMap
        indexerList).completed =
      (IndexLatencyMeasurement names respond₂ rangeIndexers config jobName metricMap
        indexerList).completed ∧
    indexCalls (IndexLatencyMeasurement names respond₁ rangeIndexers config jobName metricMap
        indexerList).trace =
      indexCalls (IndexLatencyMeasurement names respond₂ rangeIndexers config jobName metricMap
        indexerList).trace := by
  unfold IndexLatencyMeasurement
  apply forRange_congr_calls
  intro e _
  exact routeMetric_respond_irrelevant names respond₁ respond₂ rangeIndexers config jobName
    indexerList e.1 e.2

theorem IndexLatencyMeasurement_calls_initial (names : MetricNames)
    (respond : W → List D → IndexingOpts → String × Option String)
    (rangeIndexers : String → RangeOrder (Option W)) (config : Measurement) (jobName : String)
    (metricMap : GoMap (List D)) (indexerList : GoMap (Option W)) :
    indexCalls (IndexLatencyMeasurement names respond rangeIndexers config jobName metricMap
        indexerList).trace <+:
      metricMap.flatMap (expectedCalls names rangeIndexers config jobName indexerList) := by
  unfold IndexLatencyMeasurement
  induction metricMap with
  | nil => simp [forRange, indexCalls]
  | cons e rest ih =>
    simp only [forRange, Exec.andThen, List.flatMap_cons]
    cases hc : (routeMetric names respond rangeIndexers config jobName indexerList e.1
        e.2).completed
    · simp only [Bool.false_eq_true, if_false]
      exact (routeMetric_calls_initial names respond rangeIndexers config jobName indexerList
        e.1 e.2).trans (List.prefix_append _ _)
    · simp only [if_true, indexCalls_append]
      rw [routeMetric_calls_of_completed names respond rangeIndexers config jobName indexerList
        e.1 e.2 hc]
      exact (List.prefix_append_right_inj _).2 ih

theorem IndexLatencyMeasurement_of_resolved (names : MetricNames)
    (respond : W → List D → IndexingOpts → String × Option String)
    (rangeIndexers : String → RangeOrder (Option W)) (config : Measurement) (jobName : String)
    (metricMap : GoMap (List D)) (indexerList : GoMap (Option W))
    (hvalid : ∀ k, (rangeIndexers k).Valid)
    (h : Resolved names config metricMap indexerList) :
    (IndexLatencyMeasurement names respond rangeIndexers config jobName metricMap
        indexerList).completed = true ∧
      indexCalls (IndexLatencyMeasurement names respond rangeIndexers config jobName metricMap
        indexerList).trace =
      metricMap.flatMap (expectedCalls names rangeIndexers config jobName indexerList) := by
  have hall : ∀ e ∈ metricMap, (routeMetric names respond rangeIndexers config jobName
      indexerList e.1 e.2).completed = true := by
    intro e he
    exact (routeMetric_completed_iff names respond rangeIndexers config jobName indexerList
      e.1 e.2).2 (selectedWriters_of_resolved names rangeIndexers config metricMap indexerList
        e.1 hvalid h (List.mem_map_of_mem Prod.fst he))
  have hc : (IndexLatencyMeasurement names respond rangeIndexers config jobName metricMap
      indexerList).completed = true := (forRange_completed_iff _ _).2 hall
  refine ⟨hc, ?_⟩
  unfold IndexLatencyMeasurement at hc ⊢
  rw [forRange_calls_of_completed _ _ hc]
  apply List.flatMap_congr
  intro e he
  exact routeMetric_calls_of_completed names respond rangeIndexers config jobName indexerList
    e.1 e.2 (hall e he)

theorem stream_injective (a b jobName : String)
    (h : a ++ "-" ++ jobName = b ++ "-" ++ jobName) : a = b := by
  have hd := congrArg String.data h
  simp only [String.data_append, List.append_assoc] at hd
  exact String.ext (List.append_cancel_right hd)

theorem mem_expectedCalls (names : MetricNames) (rangeIndexers : String → RangeOrder (Option W))
    (config : Measurement) (jobName : String) (indexerList : GoMap (Option W))
    (e : String × List D) (c : IndexCall W D)
    (hc : c ∈ expectedCalls names rangeIndexers config jobName indexerList e) :
    ∃ w, some w ∈ selectedWriters names rangeIndexers config indexerList e.1 ∧
      c = ⟨w, e.2, ⟨e.1 ++ "-" ++ jobName⟩⟩ := by
  unfold expectedCalls at hc
  obtain ⟨indexer, hin, hmap⟩ := List.mem_filterMap.1 hc
  cases indexer with
  | none => cases hmap
  | some w =>
    simp only [Option.map_some', Option.some.injEq] at hmap
    exact ⟨w, hin, hmap.symm⟩

theorem filter_expectedCalls_self (names : MetricNames)
    (rangeIndexers : String → RangeOrder (Option W))
    (config : Measurement) (jobName : String) (indexerList : GoMap (Option W)) (m : String)
    (data : List D) :
    (expectedCalls names rangeIndexers config jobName indexerList (m, data)).filter
        (fun c => c.opts.MetricName = m ++ "-" ++ jobName) =
      expectedCalls names rangeIndexers config jobName indexerList (m, data) := by
  apply List.filter_eq_self.2
  intro c hc
  obtain ⟨w, _, rfl⟩ := mem_expectedCalls names rangeIndexers config jobName indexerList _ c hc
  simp

theorem filter_expectedCalls_other (names : MetricNames)
    (rangeIndexers : String → RangeOrder (Option W))
    (config : Measurement) (jobName : String) (indexerList : GoMap (Option W)) (m : String)
    (e : String × List D) (hne : e.1 ≠ m) :
    (expectedCalls names rangeIndexers config jobName indexerList e).filter
        (fun c => c.opts.MetricName = m ++ "-" ++ jobName) = [] := by
  apply List.filter_eq_nil_iff.2
  intro c hc
  obtain ⟨w, _, rfl⟩ := mem_expectedCalls names rangeIndexers config jobName indexerList _ c hc
  simpa using fun h => hne (stream_injective _ _ _ h)

theorem filter_flatMap_expectedCalls (names : MetricNames)
    (rangeIndexers : String → RangeOrder (Option W)) (config : Measurement) (jobName : String)
    (indexerList : GoMap (Option W)) (metricMap : GoMap (List D)) (m : String) (data : List D)
    (hwf : metricMap.WellFormed) (hmem : (m, data) ∈ metricMap) :
    (metricMap.flatMap (expectedCalls names rangeIndexers config jobName indexerList)).filter
        (fun c => c.opts.MetricName = m ++ "-" ++ jobName) =
      expectedCalls names rangeIndexers config jobName indexerList (m, data) := by
  induction metricMap with
  | nil => cases hmem
  | cons e rest ih =>
    have hnd : e.1 ∉ GoMap.keys rest ∧ (GoMap.keys rest).Nodup := by
      simpa [GoMap.WellFormed, GoMap.keys] using hwf
    simp only [List.flatMap_cons, List.filter_append]
    rcases List.mem_cons.1 hmem with heq | hin
    · subst heq
      have hrest : (rest.flatMap (expectedCalls names rangeIndexers config jobName
          indexerList)).filter (fun c => c.opts.MetricName = m ++ "-" ++ jobName) = [] := by
        apply List.filter_eq_nil_iff.2
        intro c hc
        obtain ⟨e', he', hce'⟩ := List.mem_flatMap.1 hc
        have hne : e'.1 ≠ m := fun h =>
          hnd.1 (h ▸ (List.mem_map_of_mem Prod.fst he' : e'.1 ∈ GoMap.keys rest))
        have := filter_expectedCalls_other names rangeIndexers config jobName indexerList m e' hne
        exact (List.filter_eq_nil_iff.1 this) c hce'
      rw [filter_expectedCalls_self, hrest, List.append_nil]
    · have hne : e.1 ≠ m := fun h =>
        hnd.1 (h ▸ (List.mem_map_of_mem Prod.fst hin : m ∈ GoMap.keys rest))
      rw [filter_expectedCalls_other names rangeIndexers config jobName indexerList m e hne,
        ih hnd.2 hin, List.nil_append]

theorem callsFor_of_resolved (names : MetricNames)
    (respond : W → List D → IndexingOpts → String × Option String)
    (rangeIndexers : String → RangeOrder (Option W)) (config : Measurement) (jobName : String)
    (metricMap : GoMap (List D)) (indexerList : GoMap (Option W)) (m : String) (data : List D)
    (hvalid : ∀ k, (rangeIndexers k).Valid)
    (hres : Resolved names config metricMap indexerList) (hwf : metricMap.WellFormed)
    (hmem : (m, data) ∈ metricMap) :
    callsFor m jobName (IndexLatencyMeasurement names respond rangeIndexers config jobName
        metricMap indexerList).trace =
      expectedCalls names rangeIndexers config jobName indexerList (m, data) := by
  unfold callsFor
  rw [(IndexLatencyMeasurement_of_resolved names respond rangeIndexers config jobName metricMap
    indexerList hvalid hres).2]
  exact filter_flatMap_expectedCalls names rangeIndexers config jobName indexerList metricMap m
    data hwf hmem

end Router

/-! ## Lemmas on the aggregator -/

section Aggregator

variable {V L R : Type}

theorem find_set (m : GoMap V) (k k' : String) (v : V) :
    (m.set k v).find k' = if k = k' then some v else m.find k' := by
  induction m with
  | nil => simp [GoMap.set, GoMap.find]
  | cons e rest ih =>
    obtain ⟨a, b⟩ := e
    by_cases hak : a = k
    · subst hak
      simp only [GoMap.set, if_true, GoMap.find]
      by_cases hak' : a = k' <;> simp [hak']
    · simp only [GoMap.set, if_neg hak, GoMap.find, ih]
      by_cases hak' : a = k'
      · subst hak'
        simp [Ne.symm hak]
      · simp [hak']

theorem find_eq_none_iff (m : GoMap V) (k : String) : m.find k = none ↔ k ∉ m.keys := by
  induction m with
  | nil => simp [GoMap.find, GoMap.keys]
  | cons e rest ih =>
    obtain ⟨a, b⟩ := e
    by_cases hak : a = k
    · simp [GoMap.find, GoMap.keys, hak]
    · simp only [GoMap.find, if_neg hak, ih, GoMap.keys, List.map_cons, List.mem_cons, not_or]
      exact ⟨fun h => ⟨Ne.symm hak, h⟩, fun h => h.2⟩

theorem mem_keys_set (m : GoMap V) (k k' : String) (v : V) :
    k' ∈ (m.set k v).keys ↔ k' = k ∨ k' ∈ m.keys := by
  have h1 := find_eq_none_iff (m.set k v) k'
  have h2 := find_eq_none_iff m k'
  rw [find_set] at h1
  by_cases hk : k = k'
  · simp only [hk, if_true] at h1
    simpa [hk] using h1
  · rw [if_neg hk] at h1
    have hk' : ¬ k' = k := fun h => hk h.symm
    simp only [hk', false_or]
    exact not_iff_not.1 (h1.symm.trans h2)

theorem wellFormed_set (m : GoMap V) (k : String) (v : V) (h : m.WellFormed) :
    (m.set k v).WellFormed := by
  induction m with
  | nil => simp [GoMap.set, GoMap.WellFormed, GoMap.keys]
  | cons e rest ih =>
    obtain ⟨a, b⟩ := e
    have hnd : a ∉ GoMap.keys rest ∧ GoMap.WellFormed rest := by
      simpa [GoMap.WellFormed, GoMap.keys] using h
    by_cases hak : a = k
    · subst hak
      simpa [GoMap.set, GoMap.WellFormed, GoMap.keys] using hnd
    · have hnew : a ∉ GoMap.keys (GoMap.set rest k v) := fun hin => by
        rcases (mem_keys_set rest k a v).1 hin with h1 | h1
        · exact hak h1
        · exact hnd.1 h1
      have hrest := ih hnd.2
      simp only [GoMap.set, if_neg hak]
      unfold GoMap.WellFormed GoMap.keys at hrest hnew ⊢
      rw [List.map_cons, List.nodup_cons]
      exact ⟨hnew, hrest⟩

theorem find_foldl_appendLatency (rm : GoMap L) (qm : GoMap (List L)) (c : String)
    (hrm : rm.WellFormed) :
    (rm.foldl appendLatency qm).find c =
      match rm.find c with
      | none => qm.find c
      | some l => some ((qm.find c).getD [] ++ [l]) := by
  induction rm generalizing qm with
  | nil => simp [GoMap.find]
  | cons e rest ih =>
    obtain ⟨k, l⟩ := e
    have hnd : k ∉ GoMap.keys rest ∧ GoMap.WellFormed rest := by
      simpa [GoMap.WellFormed, GoMap.keys] using hrm
    rw [List.foldl_cons, ih _ hnd.2]
    by_cases hkc : k = c
    · subst hkc
      have hnone := (find_eq_none_iff rest k).2 hnd.1
      simp [hnone, GoMap.find, appendLatency, find_set]
    · simp [GoMap.find, hkc, appendLatency, find_set]

theorem wellFormed_foldl_appendLatency (rm : GoMap L) (qm : GoMap (List L))
    (h : qm.WellFormed) : (rm.foldl appendLatency qm).WellFormed := by
  induction rm generalizing qm with
  | nil => exact h
  | cons e rest ih => exact ih _ (wellFormed_set qm _ _ h)

theorem keys_foldl_appendLatency (rm : GoMap L) (qm : GoMap (List L)) (c : String)
    (hrm : rm.WellFormed) :
    c ∈ GoMap.keys (rm.foldl appendLatency qm) ↔ c ∈ qm.keys ∨ c ∈ rm.keys := by
  rw [← not_iff_not, ← find_eq_none_iff, find_foldl_appendLatency rm qm c hrm, not_or,
    ← find_eq_none_iff, ← find_eq_none_iff]
  cases rm.find c <;> simp

theorem getD_foldl_appendLatency (rm : GoMap L) (qm : GoMap (List L)) (c : String)
    (hrm : rm.WellFormed) :
    ((rm.foldl appendLatency qm).find c).getD [] =
      (qm.find c).getD [] ++ (rm.find c).toList := by
  rw [find_foldl_appendLatency rm qm c hrm]
  cases rm.find c <;> simp

theorem buildQuantileMap_from (getLatency : R → GoMap L) (normLatencies : List R)
    (qm : GoMap (List L)) (c : String) (hqm : qm.WellFormed)
    (hmaps : ∀ r ∈ normLatencies, (getLatency r).WellFormed) :
    (normLatencies.foldl (fun quantileMap normLatency =>
        (getLatency normLatency).foldl appendLatency quantileMap) qm).WellFormed ∧
      (c ∈ GoMap.keys (normLatencies.foldl (fun quantileMap normLatency =>
          (getLatency normLatency).foldl appendLatency quantileMap) qm) ↔
        c ∈ qm.keys ∨ Observed getLatency normLatencies c) ∧
      ((normLatencies.foldl (fun quantileMap normLatency =>
          (getLatency normLatency).foldl appendLatency quantileMap) qm).find c).getD [] =
        (qm.find c).getD [] ++ observedValues getLatency normLatencies c := by
  induction normLatencies generalizing qm with
  | nil => exact ⟨hqm, by simp [Observed], by simp [observedValues]⟩
  | cons r rest ih =>
    have hr := hmaps r (List.mem_cons_self _ _)
    obtain ⟨hwf, hkeys, hvals⟩ := ih ((getLatency r).foldl appendLatency qm)
      (wellFormed_foldl_appendLatency (getLatency r) qm hqm)
      (fun r' hr' => hmaps r' (List.mem_cons_of_mem _ hr'))
    refine ⟨hwf, ?_, ?_⟩
    · rw [List.foldl_cons, hkeys, keys_foldl_appendLatency _ _ _ hr]
      simp [Observed, or_assoc]
    · rw [List.foldl_cons, hvals, getD_foldl_appendLatency _ _ _ hr]
      cases hf : (getLatency r).find c <;> simp [observedValues, hf]

theorem find_buildQuantileMap (getLatency : R → GoMap L) (normLatencies : List R)
    (hmaps : ∀ r ∈ normLatencies, (getLatency r).WellFormed) :
    (buildQuantileMap getLatency normLatencies).WellFormed ∧
      ∀ c, (c ∈ (buildQuantileMap getLatency normLatencies).keys ↔
          Observed getLatency normLatencies c) ∧
        ∀ ls, (c, ls) ∈ buildQuantileMap getLatency normLatencies →
          ls = observedValues getLatency normLatencies c := by
  have hnil : GoMap.WellFormed ([] : GoMap (List L)) := by simp [GoMap.WellFormed, GoMap.keys]
  have h := fun c => buildQuantileMap_from getLatency normLatencies [] c hnil hmaps
  refine ⟨(h "").1, fun c => ⟨?_, ?_⟩⟩
  · simpa [buildQuantileMap, GoMap.keys] using (h c).2.1
  · intro ls hmem
    have hfind := find_of_mem_wellFormed _ c ls (h c).1 hmem
    have hv := (h c).2.2
    rw [hfind] at hv
    simpa [GoMap.find] using hv

end Aggregator

/-! ## The router: claims -/

/-- C5, as stated, fails: the time-series indexer "es" is registered and the raw pod-latency
metric is a key of `metricMap`, but the quantiles indexer "q" is not registered and the
quantile-summary key is visited first; the lookup of "q" yields nil, the call on it panics and
no `Index` call is ever made for the raw pod-latency metric. -/
theorem IndexLatencyMeasurement_rule1_counterexample :
    (⟨[], "es", "q"⟩ : Measurement).TimeseriesIndexer ≠ "" ∧
      GoMap.find [("es", some 0), ("local", some 1)] "es" = some (some 0) ∧
      "podLatencyMeasurement" ∈ sampleNames.raw ∧
      "podLatencyMeasurement" ∈
        GoMap.keys [("podLatencyQuantilesMeasurement", [3]), ("podLatencyMeasurement", [1, 2])] ∧
      callsFor "podLatencyMeasurement" "job"
        (IndexLatencyMeasurement sampleNames (fun _ _ _ => ("ok", none)) (fun _ m => m)
          ⟨[], "es", "q"⟩ "job"
          [("podLatencyQuantilesMeasurement", [3]), ("podLatencyMeasurement", [1, 2])]
          [("es", some 0), ("local", some 1)]).trace = ([] : List (IndexCall Nat Nat)) := by
  decide

/-- C5, amended: with a non-empty time-series indexer name under which the registry stores a
writer that is not nil, and every other interface value on which the routing calls `Index` for
a key of `metricMap` not nil either (`Resolved`), the calls made for a raw-latency key are
exactly one call, on the writer stored under the time-series name, with no call for it on any
other writer. -/
theorem IndexLatencyMeasurement_rule1 {W D : Type} (names : MetricNames)
    (respond : W → List D → IndexingOpts → String × Option String)
    (rangeIndexers : String → RangeOrder (Option W)) (config : Measurement) (jobName : String)
    (metricMap : GoMap (List D)) (indexerList : GoMap (Option W)) (metricName : String)
    (data : List D) (w : W) (hwf : metricMap.WellFormed)
    (hvalid : ∀ k, (rangeIndexers k).Valid) (hkey : (metricName, data) ∈ metricMap)
    (hts : config.TimeseriesIndexer ≠ "")
    (hw : lookupIndexer indexerList config.TimeseriesIndexer = some w)
    (hraw : metricName ∈ names.raw)
    (hres : Resolved names config metricMap indexerList) :
    callsFor metricName jobName
        (IndexLatencyMeasurement names respond rangeIndexers config jobName metricMap
          indexerList).trace =
      [⟨w, data, ⟨metricName ++ "-" ++ jobName⟩⟩] := by
  rw [callsFor_of_resolved names respond rangeIndexers config jobName metricMap indexerList
    metricName data hvalid hres hwf hkey]
  have h1 : rule1 names config metricName := ⟨hts, hraw⟩
  simp [expectedCalls, selectedWriters, h1, hw, callOn]

/-- C5 amended, evaluated on the example of the specification: time-series indexer "es", no
quantiles indexer, registry with `es` and `local`; the raw pod-latency documents go to `es`
only. -/
theorem IndexLatencyMeasurement_rule1_witness :
    callsFor "podLatencyMeasurement" "job"
        (IndexLatencyMeasurement sampleNames
          (fun w _ _ => if w = "local-writer" then ("", some "disk full") else ("created", none))
          (fun _ m => m) ⟨[], "es", ""⟩ "job"
          [("podLatencyQuantilesMeasurement", [3]), ("podLatencyMeasurement", [1, 2])]
          [("es", some "es-writer"), ("local", some "local-writer")]).trace =
      [⟨"es-writer", [1, 2], ⟨"podLatencyMeasurement" ++ "-" ++ "job"⟩⟩] :=
  IndexLatencyMeasurement_rule1 sampleNames _ _ ⟨[], "es", ""⟩ "job"
    [("podLatencyQuantilesMeasurement", [3]), ("podLatencyMeasurement", [1, 2])]
    [("es", some "es-writer"), ("local", some "local-writer")] "podLatencyMeasurement" [1, 2]
    "es-writer" (by decide) (fun _ m => List.Perm.refl m) (by decide) (by decide) (by decide)
    (by decide) (by decide)

/-- C6, as stated, fails: the quantiles indexer "es" is registered and the pod quantile-summary
metric is a key of `metricMap`, but the time-series indexer "ts" is not registered and the raw
pod-latency key is visited first; the call on the nil lookup result panics and no `Index` call
is made for the quantile-summary metric. -/
theorem IndexLatencyMeasurement_rule2_counterexample :
    sampleNames.Distinct ∧
      (⟨[], "ts", "es"⟩ : Measurement).QuantilesIndexer ≠ "" ∧
      GoMap.find [("es", some 0), ("local", some 1)] "es" = some (some 0) ∧
      "podLatencyQuantilesMeasurement" ∈ sampleNames.quantiles ∧
      "podLatencyQuantilesMeasurement" ∈
        GoMap.keys [("podLatencyMeasurement", [1, 2]), ("podLatencyQuantilesMeasurement", [3])] ∧
      callsFor "podLatencyQuantilesMeasurement" "job"
        (IndexLatencyMeasurement sampleNames (fun _ _ _ => ("ok", none)) (fun _ m => m)
          ⟨[], "ts", "es"⟩ "job"
          [("podLatencyMeasurement", [1, 2]), ("podLatencyQuantilesMeasurement", [3])]
          [("es", some 0), ("local", some 1)]).trace = ([] : List (IndexCall Nat Nat)) := by
  decide

/-- C6, amended: with pairwise distinct metric-name constants, a non-empty quantiles indexer
name under which the registry stores a writer that is not nil, and every other interface value
on which the routing calls `Index` for a key of `metricMap` not nil either (`Resolved`), the
calls made for a quantile-summary key are exactly one call, on the writer stored under the
quantiles name, whether the time-series name is empty or set. -/
theorem IndexLatencyMeasurement_rule2 {W D : Type} (names : MetricNames)
    (respond : W → List D → IndexingOpts → String × Option String)
    (rangeIndexers : String → RangeOrder (Option W)) (config : Measurement) (jobName : String)
    (metricMap : GoMap (List D)) (indexerList : GoMap (Option W)) (metricName : String)
    (data : List D) (w : W) (hdist : names.Distinct) (hwf : metricMap.WellFormed)
    (hvalid : ∀ k, (rangeIndexers k).Valid) (hkey : (metricName, data) ∈ metricMap)
    (hq : config.QuantilesIndexer ≠ "")
    (hw : lookupIndexer indexerList config.QuantilesIndexer = some w)
    (hquant : metricName ∈ names.quantiles)
    (hres : Resolved names config metricMap indexerList) :
    callsFor metricName jobName
        (IndexLatencyMeasurement names respond rangeIndexers config jobName metricMap
          indexerList).trace =
      [⟨w, data, ⟨metricName ++ "-" ++ jobName⟩⟩] := by
  rw [callsFor_of_resolved names respond rangeIndexers config jobName metricMap indexerList
    metricName data hvalid hres hwf hkey]
  have hnotraw : metricName ∉ names.raw := fun hr =>
    (List.nodup_append.1 hdist).2.2 hr hquant
  have h1 : ¬ rule1 names config metricName := fun h => hnotraw h.2
  have h2 : rule2 names config metricName := ⟨h1, hq, hquant⟩
  simp [expectedCalls, selectedWriters, h1, h2, hw, callOn]

/-- C6 amended, evaluated: quantiles indexer "local" and time-series indexer "es", both
registered with a writer; the pod quantile summaries go to the writer of `local` only. -/
theorem IndexLatencyMeasurement_rule2_witness :
    callsFor "podLatencyQuantilesMeasurement" "job"
        (IndexLatencyMeasurement sampleNames (fun _ _ _ => ("created", none)) (fun _ m => m)
          ⟨[], "es", "local"⟩ "job"
          [("podLatencyMeasurement", [1, 2]), ("podLatencyQuantilesMeasurement", [3])]
          [("es", some "es-writer"), ("local", some "local-writer")]).trace =
      [⟨"local-writer", [3], ⟨"podLatencyQuantilesMeasurement" ++ "-" ++ "job"⟩⟩] :=
  IndexLatencyMeasurement_rule2 sampleNames _ _ ⟨[], "es", "local"⟩ "job"
    [("podLatencyMeasurement", [1, 2]), ("podLatencyQuantilesMeasurement", [3])]
    [("es", some "es-writer"), ("local", some "local-writer")] "podLatencyQuantilesMeasurement"
    [3] "local-writer" (by decide) (by decide) (fun _ m => List.Perm.refl m) (by decide)
    (by decide) (by decide) (by decide) (by decide)

/-- C7, as stated, fails: neither rule applies to the key "custom" and the registry holds one
writer, but the time-series indexer "ts" is not registered and the raw pod-latency key is
visited first; the call on the nil lookup result panics and "custom" is never broadcast. -/
theorem IndexLatencyMeasurement_broadcast_counterexample :
    ¬ ((⟨[], "ts", ""⟩ : Measurement).TimeseriesIndexer ≠ "" ∧ "custom" ∈ sampleNames.raw) ∧
      ¬ ((⟨[], "ts", ""⟩ : Measurement).QuantilesIndexer ≠ "" ∧
        "custom" ∈ sampleNames.quantiles) ∧
      "custom" ∈ GoMap.keys [("podLatencyMeasurement", [1, 2]), ("custom", [3])] ∧
      List.length [("local", some 1)] = 1 ∧
      callsFor "custom" "job"
        (IndexLatencyMeasurement sampleNames (fun _ _ _ => ("ok", none)) (fun _ m => m)
          ⟨[], "ts", ""⟩ "job" [("podLatencyMeasurement", [1, 2]), ("custom", [3])]
          [("local", some 1)]).trace = ([] : List (IndexCall Nat Nat)) := by
  decide

/-- C7, amended: when every interface value on which the routing calls `Index` for a key of
`metricMap` is a writer and not nil (`Resolved`: the values found under the dedicated names
that are looked up, and every value stored in the registry when a key is broadcast), (a) a key
to which neither rule 1 nor rule 2 applies gets exactly one `Index` call per registry entry, on
the writer stored in that entry, so as many calls as the registry has entries, and (b) over the
whole call the `Index` calls are exactly one per pair of a key and a writer that the three
rules select for it, and no other. -/
theorem IndexLatencyMeasurement_broadcast {W D : Type} (names : MetricNames)
    (respond : W → List D → IndexingOpts → String × Option String)
    (rangeIndexers : String → RangeOrder (Option W)) (config : Measurement) (jobName : String)
    (metricMap : GoMap (List D)) (indexerList : GoMap (Option W))
    (hwf : metricMap.WellFormed) (hvalid : ∀ m, (rangeIndexers m).Valid)
    (hres : Resolved names config metricMap indexerList) :
    (∀ metricName data, (metricName, data) ∈ metricMap →
      ¬ (config.TimeseriesIndexer ≠ "" ∧ metricName ∈ names.raw) →
      ¬ (config.QuantilesIndexer ≠ "" ∧ metricName ∈ names.quantiles) →
      ((callsFor metricName jobName
          (IndexLatencyMeasurement names respond rangeIndexers config jobName metricMap
            indexerList).trace).map
          (fun c => (some c.writer, c.data, c.opts))).Perm
          (indexerList.map (fun entry =>
            (entry.2, data, (⟨metricName ++ "-" ++ jobName⟩ : IndexingOpts)))) ∧
        (callsFor metricName jobName
          (IndexLatencyMeasurement names respond rangeIndexers config jobName metricMap
            indexerList).trace).length = indexerList.length) ∧
      indexCalls (IndexLatencyMeasurement names respond rangeIndexers config jobName metricMap
          indexerList).trace =
        metricMap.flatMap (fun entry =>
          (selectedWriters names rangeIndexers config indexerList entry.1).filterMap
            (fun indexer => indexer.map
              (fun w => ⟨w, entry.2, ⟨entry.1 ++ "-" ++ jobName⟩⟩))) := by
  refine ⟨?_, (IndexLatencyMeasurement_of_resolved names respond rangeIndexers config jobName
    metricMap indexerList hvalid hres).2⟩
  intro metricName data hkey h1 h2
  have h1' : ¬ rule1 names config metricName := h1
  have h2' : ¬ rule2 names config metricName := fun h => h2 h.2
  have hcalls := callsFor_of_resolved names respond rangeIndexers config jobName metricMap
    indexerList metricName data hvalid hres hwf hkey
  have hsome : ∀ entry ∈ rangeIndexers metricName indexerList, entry.2.isSome = true :=
    fun entry hentry => (hres metricName (List.mem_map_of_mem Prod.fst hkey)).2.2 h1' h2' entry
      ((hvalid metricName indexerList).mem_iff.1 hentry)
  have hmap : (expectedCalls names rangeIndexers config jobName indexerList
      (metricName, data)).map (fun c => (some c.writer, c.data, c.opts)) =
      (rangeIndexers metricName indexerList).map (fun entry =>
        (entry.2, data, (⟨metricName ++ "-" ++ jobName⟩ : IndexingOpts))) := by
    simp only [expectedCalls, selectedWriters, if_neg h1', if_neg h2']
    generalize rangeIndexers metricName indexerList = ws at hsome
    induction ws with
    | nil => rfl
    | cons e rest ih =>
      obtain ⟨k, v⟩ := e
      have hv := hsome (k, v) (List.mem_cons_self _ _)
      obtain ⟨w, rfl⟩ := Option.isSome_iff_exists.1 hv
      have := ih (fun entry hentry => hsome entry (List.mem_cons_of_mem _ hentry))
      simp only [List.map_cons, List.filterMap_cons, Option.map_some', callOn] at this ⊢
      rw [this]
  have hperm : ((expectedCalls names rangeIndexers config jobName indexerList
      (metricName, data)).map (fun c => (some c.writer, c.data, c.opts))).Perm
      (indexerList.map (fun entry =>
        (entry.2, data, (⟨metricName ++ "-" ++ jobName⟩ : IndexingOpts)))) := by
    rw [hmap]
    exact (hvalid metricName indexerList).map _
  rw [hcalls]
  exact ⟨hperm, by simpa using hperm.length_eq⟩

/-- C7 amended, evaluated: both indexer names are configured and registered, and the key
"custom", outside the eight recognised names, is broadcast to the three writers. -/
theorem IndexLatencyMeasurement_broadcast_witness :
    ((callsFor "custom" "job"
        (IndexLatencyMeasurement sampleNames (fun _ _ _ => ("created", none))
          (fun _ m => m.reverse) ⟨[], "es", "local"⟩ "job"
          [("podLatencyMeasurement", [1, 2]), ("custom", [3])]
          [("es", some "es-writer"), ("local", some "local-writer"),
            ("os", some "os-writer")]).trace).map
          (fun c => (some c.writer, c.data, c.opts))).Perm
        ([("es", some "es-writer"), ("local", some "local-writer"),
            ("os", some "os-writer")].map
          (fun entry => (entry.2, [3], (⟨"custom" ++ "-" ++ "job"⟩ : IndexingOpts)))) ∧
      (callsFor "custom" "job"
        (IndexLatencyMeasurement sampleNames (fun _ _ _ => ("created", none))
          (fun _ m => m.reverse) ⟨[], "es", "local"⟩ "job"
          [("podLatencyMeasurement", [1, 2]), ("custom", [3])]
          [("es", some "es-writer"), ("local", some "local-writer"),
            ("os", some "os-writer")]).trace).length = 3 :=
  (IndexLatencyMeasurement_broadcast sampleNames (fun _ _ _ => ("created", none))
    (fun _ m => m.reverse) ⟨[], "es", "local"⟩ "job"
    [("podLatencyMeasurement", [1, 2]), ("custom", [3])]
    [("es", some "es-writer"), ("local", some "local-writer"), ("os", some "os-writer")]
    (by decide) (fun _ m => List.reverse_perm m) (by decide)).1 "custom" [3] (by decide)
    (by decide) (by decide)

/-- C8, as stated, fails in its last part: with the time-series indexer "ts" absent from the
registry and a raw pod-latency key in `metricMap`, `IndexLatencyMeasurement` does not complete,
although every writer of the registry would succeed. -/
theorem IndexLatencyMeasurement_completes_counterexample :
    (IndexLatencyMeasurement sampleNames (fun _ _ _ => ("created", none)) (fun _ m => m)
        ⟨[], "ts", ""⟩ "job" [("podLatencyMeasurement", [1, 2])]
        [("es", some 0), ("local", some 1)]).completed = false ∧
      indexCalls (IndexLatencyMeasurement sampleNames (fun _ _ _ => ("created", none))
        (fun _ m => m) ⟨[], "ts", ""⟩ "job" [("podLatencyMeasurement", [1, 2])]
        [("es", some 0), ("local", some 1)]).trace = ([] : List (IndexCall Nat Nat)) := by
  decide

/-- C8, amended: the `Index` calls made (writer, stream name, documents, in order), and whether
the call completes, are the same for any two assignments of success or error outcomes to the
writers; and `IndexLatencyMeasurement` completes whenever every interface value on which the
routing calls `Index` for a key of `metricMap` is a writer and not nil (`Resolved`). -/
theorem IndexLatencyMeasurement_failure_isolation {W D : Type} (names : MetricNames)
    (respond₁ respond₂ : W → List D → IndexingOpts → String × Option String)
    (rangeIndexers : String → RangeOrder (Option W)) (config : Measurement) (jobName : String)
    (metricMap : GoMap (List D)) (indexerList : GoMap (Option W)) :
    indexCalls (IndexLatencyMeasurement names respond₁ rangeIndexers config jobName metricMap
        indexerList).trace =
      indexCalls (IndexLatencyMeasurement names respond₂ rangeIndexers config jobName metricMap
        indexerList).trace ∧
    (IndexLatencyMeasurement names respond₁ rangeIndexers config jobName metricMap
        indexerList).completed =
      (IndexLatencyMeasurement names respond₂ rangeIndexers config jobName metricMap
        indexerList).completed ∧
    ((∀ m, (rangeIndexers m).Valid) → Resolved names config metricMap indexerList →
      (IndexLatencyMeasurement names respond₁ rangeIndexers config jobName metricMap
        indexerList).completed = true) :=
  ⟨(IndexLatencyMeasurement_respond_irrelevant names respond₁ respond₂ rangeIndexers config
      jobName metricMap indexerList).2,
   (IndexLatencyMeasurement_respond_irrelevant names respond₁ respond₂ rangeIndexers config
      jobName metricMap indexerList).1,
   fun hvalid hres => (IndexLatencyMeasurement_of_resolved names respond₁ rangeIndexers config
      jobName metricMap indexerList hvalid hres).1⟩

/-- C8 amended, evaluated on the example of the specification: registry with `es` and `local`,
a broadcast in which `local` fails and `es` succeeds; both calls are made, as when both
succeed, and the call completes. -/
theorem IndexLatencyMeasurement_failure_isolation_witness :
    indexCalls (IndexLatencyMeasurement sampleNames
        (fun w _ _ => if w = "local-writer" then ("", some "disk full") else ("created", none))
        (fun _ m => m) ⟨[], "", ""⟩ "job" [("podLatencyMeasurement", [1, 2])]
        [("local", some "local-writer"), ("es", some "es-writer")]).trace =
      [⟨"local-writer", [1, 2], ⟨"podLatencyMeasurement-job"⟩⟩,
       ⟨"es-writer", [1, 2], ⟨"podLatencyMeasurement-job"⟩⟩] ∧
    (IndexLatencyMeasurement sampleNames
        (fun w _ _ => if w = "local-writer" then ("", some "disk full") else ("created", none))
        (fun _ m => m) ⟨[], "", ""⟩ "job" [("podLatencyMeasurement", [1, 2])]
        [("local", some "local-writer"), ("es", some "es-writer")]).completed = true :=
  have h := IndexLatencyMeasurement_failure_isolation sampleNames
    (fun w _ _ => if w = "local-writer" then ("", some "disk full") else ("created", none))
    (fun _ _ _ => ("created", none)) (fun _ m => m) ⟨[], "", ""⟩ "job"
    [("podLatencyMeasurement", [1, 2])]
    [("local", some "local-writer"), ("es", some "es-writer")]
  ⟨h.1.trans (by decide), h.2.2 (fun _ m => List.Perm.refl m) (by decide)⟩

/-- C9: every `Index` call that `IndexLatencyMeasurement` makes is made for a key `metricName`
of `metricMap`: its options carry `MetricName = metricName ++ "-" ++ jobName` and its documents
are the list stored under `metricName` in `metricMap`, unchanged (an empty list included). -/
theorem IndexLatencyMeasurement_call_arguments {W D : Type} (names : MetricNames)
    (respond : W → List D → IndexingOpts → String × Option String)
    (rangeIndexers : String → RangeOrder (Option W)) (config : Measurement) (jobName : String)
    (metricMap : GoMap (List D)) (indexerList : GoMap (Option W)) (c : IndexCall W D)
    (hc : c ∈ indexCalls (IndexLatencyMeasurement names respond rangeIndexers config jobName
      metricMap indexerList).trace) :
    ∃ metricName, (metricName, c.data) ∈ metricMap ∧
      c.opts.MetricName = metricName ++ "-" ++ jobName ∧
      (metricMap.WellFormed → metricMap.find metricName = some c.data) := by
  have hpre := (IndexLatencyMeasurement_calls_initial names respond rangeIndexers config jobName
    metricMap indexerList).subset hc
  obtain ⟨e, he, hce⟩ := List.mem_flatMap.1 hpre
  obtain ⟨w, _, rfl⟩ := mem_expectedCalls names rangeIndexers config jobName indexerList e c hce
  exact ⟨e.1, he, rfl, fun hwf => find_of_mem_wellFormed metricMap e.1 e.2 hwf he⟩

/-- C9, evaluated: the call made for the key "svcLatencyMeasurement", whose document list is
empty, carries the stream name "svcLatencyMeasurement-job" and the empty list. -/
theorem IndexLatencyMeasurement_call_arguments_witness :
    ∃ metricName,
      (metricName, ([] : List Nat)) ∈
        ([("podLatencyMeasurement", [1, 2]), ("svcLatencyMeasurement", [])] :
          GoMap (List Nat)) ∧
      "svcLatencyMeasurement-job" = metricName ++ "-" ++ "job" ∧
      (GoMap.WellFormed
          ([("podLatencyMeasurement", [1, 2]), ("svcLatencyMeasurement", [])] :
            GoMap (List Nat)) →
        GoMap.find ([("podLatencyMeasurement", [1, 2]), ("svcLatencyMeasurement", [])] :
          GoMap (List Nat)) metricName = some []) :=
  IndexLatencyMeasurement_call_arguments sampleNames (fun _ _ _ => ("created", none))
    (fun _ m => m) ⟨[], "es", ""⟩ "job"
    [("podLatencyMeasurement", [1, 2]), ("svcLatencyMeasurement", [])]
    [("es", some "es-writer")] ⟨"es-writer", [], ⟨"svcLatencyMeasurement-job"⟩⟩ (by decide)

/-! ## The aggregator: claims -/

/-- C10: the summaries that `CalculateQuantiles` returns are, in the order in which the
condition map is visited, the summaries `calcSummary c (observedValues c)` of the visited
conditions `c`: each is computed by `NewLatencySummary` over exactly the values
`getLatency(r)[c]` of the records `r` whose map has the key `c`, in the order of the records.
Every summary returned is the one of an observed condition, and every observed condition has
its summary in the result. -/
theorem CalculateQuantiles_values {R L S M : Type}
    (NewLatencySummary : List L → String → LatencyQuantiles S M)
    (rangeQuantiles : RangeOrder (List L)) (uuid jobName : String) (metadata : M)
    (normLatencies : List R) (getLatency : R → GoMap L) (metricName : String)
    (hmaps : ∀ r ∈ normLatencies, (getLatency r).WellFormed)
    (hvalid : rangeQuantiles.Valid) :
    CalculateQuantiles NewLatencySummary rangeQuantiles uuid jobName metadata normLatencies
        getLatency metricName =
      (rangeQuantiles (buildQuantileMap getLatency normLatencies)).keys.map (fun c =>
        calcSummary NewLatencySummary uuid jobName metadata metricName c
          (observedValues getLatency normLatencies c)) ∧
    (∀ s ∈ CalculateQuantiles NewLatencySummary rangeQuantiles uuid jobName metadata
        normLatencies getLatency metricName,
      ∃ c, Observed getLatency normLatencies c ∧
        s = calcSummary NewLatencySummary uuid jobName metadata metricName c
          (observedValues getLatency normLatencies c)) ∧
    (∀ c, Observed getLatency normLatencies c →
      calcSummary NewLatencySummary uuid jobName metadata metricName c
          (observedValues getLatency normLatencies c) ∈
        CalculateQuantiles NewLatencySummary rangeQuantiles uuid jobName metadata normLatencies
          getLatency metricName) := by
  obtain ⟨_, hq⟩ := find_buildQuantileMap getLatency normLatencies hmaps
  have hperm := hvalid (buildQuantileMap getLatency normLatencies)
  have hentry : ∀ e ∈ rangeQuantiles (buildQuantileMap getLatency normLatencies),
      Observed getLatency normLatencies e.1 ∧
        e.2 = observedValues getLatency normLatencies e.1 := by
    intro e he
    have hmem : (e.1, e.2) ∈ buildQuantileMap getLatency normLatencies := hperm.mem_iff.1 he
    exact ⟨(hq e.1).1.1 (List.mem_map_of_mem Prod.fst hmem), (hq e.1).2 e.2 hmem⟩
  refine ⟨?_, ?_, ?_⟩
  · unfold CalculateQuantiles GoMap.keys
    rw [List.map_map]
    apply List.map_congr_left
    intro e he
    simp only [Function.comp]
    rw [← (hentry e he).2]
  · intro s hs
    unfold CalculateQuantiles at hs
    obtain ⟨e, he, rfl⟩ := List.mem_map.1 hs
    exact ⟨e.1, (hentry e he).1, by rw [← (hentry e he).2]⟩
  · intro c hc
    obtain ⟨e, he, hec⟩ := List.mem_map.1 ((hq c).1.2 hc)
    have he' : e ∈ rangeQuantiles (buildQuantileMap getLatency normLatencies) :=
      hperm.mem_iff.2 he
    unfold CalculateQuantiles
    refine List.mem_map.2 ⟨e, he', ?_⟩
    rw [(hentry e he').2, hec]

/-- C10, evaluated on the example of the specification: the records `{A:10, B:20}` and
`{A:30}` with the identity extractor, and a `NewLatencySummary` that records its arguments;
the summary of A is computed over `[10, 30]` and the summary of B over `[20]`. -/
theorem CalculateQuantiles_values_witness :
    calcSummary (fun l name => (⟨(l, name), "", (), "", ""⟩ : LatencyQuantiles _ _))
        "uuid" "job" () "podLatencyQuantilesMeasurement" "A" [10, 30] ∈
      CalculateQuantiles (fun l name => (⟨(l, name), "", (), "", ""⟩ : LatencyQuantiles _ _))
        List.reverse "uuid" "job" () [[("A", 10), ("B", 20)], [("A", 30)]] (fun r => r)
        "podLatencyQuantilesMeasurement" ∧
    calcSummary (fun l name => (⟨(l, name), "", (), "", ""⟩ : LatencyQuantiles _ _))
        "uuid" "job" () "podLatencyQuantilesMeasurement" "B" [20] ∈
      CalculateQuantiles (fun l name => (⟨(l, name), "", (), "", ""⟩ : LatencyQuantiles _ _))
        List.reverse "uuid" "job" () [[("A", 10), ("B", 20)], [("A", 30)]] (fun r => r)
        "podLatencyQuantilesMeasurement" :=
  have h := CalculateQuantiles_values
    (fun l name => (⟨(l, name), "", (), "", ""⟩ : LatencyQuantiles (List Nat × String) Unit))
    List.reverse "uuid" "job" () [[("A", 10), ("B", 20)], [("A", 30)]] (fun r => r)
    "podLatencyQuantilesMeasurement" (by decide) (fun m => List.reverse_perm m)
  ⟨h.2.2 "A" ⟨[("A", 10), ("B", 20)], by decide, by decide⟩,
   h.2.2 "B" ⟨[("A", 10), ("B", 20)], by decide, by decide⟩⟩

/-! ## Further lemmas on the aggregator -/

section AggregatorOrder

variable {V L R S M : Type}

theorem mem_of_find (m : GoMap V) (k : String) (v : V) (h : m.find k = some v) :
    (k, v) ∈ m := by
  induction m with
  | nil => simp [GoMap.find] at h
  | cons e rest ih =>
    obtain ⟨a, b⟩ := e
    by_cases hak : a = k
    · subst hak
      simp only [GoMap.find, if_true, Option.some.injEq] at h
      subst h
      exact List.mem_cons_self _ _
    · simp only [GoMap.find, if_neg hak] at h
      exact List.mem_cons_of_mem _ (ih h)

theorem find_perm (m₁ m₂ : GoMap V) (k : String) (hp : m₁.Perm m₂) (hwf : m₁.WellFormed) :
    m₁.find k = m₂.find k := by
  have hwf₂ : m₂.WellFormed := ((hp.map Prod.fst).nodup_iff).1 hwf
  cases h₁ : m₁.find k with
  | none =>
    have hk : k ∉ m₂.keys := fun hin =>
      (find_eq_none_iff m₁ k).1 h₁ (((hp.map Prod.fst).mem_iff).2 hin)
    exact ((find_eq_none_iff m₂ k).2 hk).symm
  | some v =>
    exact (find_of_mem_wellFormed m₂ k v hwf₂ (hp.mem_iff.1 (mem_of_find m₁ k v h₁))).symm

theorem mem_distinctConditions (getLatency : R → GoMap L) (normLatencies : List R)
    (c : String) :
    c ∈ distinctConditions getLatency normLatencies ↔ Observed getLatency normLatencies c := by
  simp [distinctConditions, Observed, List.mem_flatMap]

theorem CalculateQuantiles_eq_map (NewLatencySummary : List L → String → LatencyQuantiles S M)
    (rangeQuantiles : RangeOrder (List L)) (uuid jobName : String) (metadata : M)
    (normLatencies : List R) (getLatency : R → GoMap L) (metricName : String)
    (hmaps : ∀ r ∈ normLatencies, (getLatency r).WellFormed)
    (hvalid : rangeQuantiles.Valid) :
    ∃ conds : List String, conds.Nodup ∧
      (∀ c, c ∈ conds ↔ Observed getLatency normLatencies c) ∧
      CalculateQuantiles NewLatencySummary rangeQuantiles uuid jobName metadata normLatencies
          getLatency metricName =
        conds.map (fun c => calcSummary NewLatencySummary uuid jobName metadata metricName c
          (observedValues getLatency normLatencies c)) := by
  obtain ⟨hwf, hq⟩ := find_buildQuantileMap getLatency normLatencies hmaps
  have hperm := hvalid (buildQuantileMap getLatency normLatencies)
  refine ⟨(rangeQuantiles (buildQuantileMap getLatency normLatencies)).keys, ?_, ?_, ?_⟩
  · exact ((hperm.map Prod.fst).nodup_iff).2 hwf
  · intro c
    exact ((hperm.map Prod.fst).mem_iff).trans (hq c).1
  · unfold CalculateQuantiles GoMap.keys
    rw [List.map_map]
    apply List.map_congr_left
    intro e he
    have hmem : (e.1, e.2) ∈ buildQuantileMap getLatency normLatencies := hperm.mem_iff.1 he
    simp only [Function.comp]
    rw [← (hq e.1).2 e.2 hmem]

theorem mem_set (m : GoMap V) (k : String) (v : V) (e : String × V) (h : e ∈ m.set k v) :
    e = (k, v) ∨ e ∈ m := by
  induction m with
  | nil => simpa [GoMap.set] using h
  | cons x rest ih =>
    obtain ⟨a, b⟩ := x
    by_cases hak : a = k
    · simp only [GoMap.set, if_pos hak, List.mem_cons] at h
      rcases h with h | h
      · exact Or.inl h
      · exact Or.inr (List.mem_cons_of_mem _ h)
    · simp only [GoMap.set, if_neg hak, List.mem_cons] at h
      rcases h with h | h
      · exact Or.inr (h ▸ List.mem_cons_self _ _)
      · rcases ih h with h' | h'
        · exact Or.inl h'
        · exact Or.inr (List.mem_cons_of_mem _ h')

theorem nonempty_foldl_appendLatency (rm : GoMap L) (qm : GoMap (List L))
    (h : ∀ e ∈ qm, e.2 ≠ []) : ∀ e ∈ rm.foldl appendLatency qm, e.2 ≠ [] := by
  induction rm generalizing qm with
  | nil => exact h
  | cons x rest ih =>
    apply ih
    intro e he
    rcases mem_set qm _ _ e he with heq | hin
    · rw [heq]
      simp
    · exact h e hin

theorem nonempty_buildQuantileMap (getLatency : R → GoMap L) (normLatencies : List R) :
    ∀ e ∈ buildQuantileMap getLatency normLatencies, e.2 ≠ [] := by
  unfold buildQuantileMap
  have hgen : ∀ (qm : GoMap (List L)), (∀ e ∈ qm, e.2 ≠ []) →
      ∀ e ∈ normLatencies.foldl (fun quantileMap normLatency =>
        (getLatency normLatency).foldl appendLatency quantileMap) qm, e.2 ≠ [] := by
    induction normLatencies with
    | nil => exact fun qm h => h
    | cons r rest ih =>
      intro qm h
      exact ih _ (nonempty_foldl_appendLatency (getLatency r) qm h)
  exact hgen [] (fun e he => by cases he)

end AggregatorOrder

/-! ## The aggregator: further claims -/

/-- C11: the number of summaries that `CalculateQuantiles` returns is the number of distinct
condition names occurring as a key in the map of at least one record; the summaries are those
of a list of conditions that holds each such condition exactly once and no other; and when
every record has an empty map, in particular when there is no record, the result is empty. -/
theorem CalculateQuantiles_sparse {R L S M : Type}
    (NewLatencySummary : List L → String → LatencyQuantiles S M)
    (rangeQuantiles : RangeOrder (List L)) (uuid jobName : String) (metadata : M)
    (normLatencies : List R) (getLatency : R → GoMap L) (metricName : String)
    (hmaps : ∀ r ∈ normLatencies, (getLatency r).WellFormed)
    (hvalid : rangeQuantiles.Valid) :
    (CalculateQuantiles NewLatencySummary rangeQuantiles uuid jobName metadata normLatencies
        getLatency metricName).length =
      (distinctConditions getLatency normLatencies).length ∧
    (∃ conds : List String, conds.Perm (distinctConditions getLatency normLatencies) ∧
      CalculateQuantiles NewLatencySummary rangeQuantiles uuid jobName metadata normLatencies
          getLatency metricName =
        conds.map (fun c => calcSummary NewLatencySummary uuid jobName metadata metricName c
          (observedValues getLatency normLatencies c))) ∧
    ((∀ r ∈ normLatencies, getLatency r = []) →
      CalculateQuantiles NewLatencySummary rangeQuantiles uuid jobName metadata normLatencies
        getLatency metricName = []) := by
  obtain ⟨conds, hnd, hmem, heq⟩ := CalculateQuantiles_eq_map NewLatencySummary rangeQuantiles
    uuid jobName metadata normLatencies getLatency metricName hmaps hvalid
  have hperm : conds.Perm (distinctConditions getLatency normLatencies) :=
    (List.perm_ext_iff_of_nodup hnd (List.nodup_dedup _)).2 (fun c =>
      (hmem c).trans (mem_distinctConditions getLatency normLatencies c).symm)
  have hlen : (CalculateQuantiles NewLatencySummary rangeQuantiles uuid jobName metadata
      normLatencies getLatency metricName).length =
      (distinctConditions getLatency normLatencies).length := by
    rw [heq, List.length_map, hperm.length_eq]
  refine ⟨hlen, ⟨conds, hperm, heq⟩, ?_⟩
  intro hempty
  apply List.length_eq_zero.1
  rw [hlen]
  apply List.length_eq_zero.2
  unfold distinctConditions
  rw [List.dedup_eq_nil, List.flatMap_eq_nil_iff]
  intro r hr
  rw [hempty r hr]
  rfl

/-- C11, evaluated: the records `{A:10, B:20}`, `{A:30}` and `{}` give two summaries, and no
record gives none. -/
theorem CalculateQuantiles_sparse_witness :
    (CalculateQuantiles (fun l name => (⟨(l, name), "", (), "", ""⟩ : LatencyQuantiles _ _))
        List.reverse "uuid" "job" () [[("A", 10), ("B", 20)], [("A", 30)], []] (fun r => r)
        "podLatencyQuantilesMeasurement").length = 2 ∧
    ((∀ r ∈ ([] : List (GoMap Nat)), (fun r => r) r = []) →
      CalculateQuantiles (fun l name => (⟨(l, name), "", (), "", ""⟩ : LatencyQuantiles _ _))
        List.reverse "uuid" "job" () ([] : List (GoMap Nat)) (fun r => r)
        "podLatencyQuantilesMeasurement" = []) :=
  ⟨(CalculateQuantiles_sparse
      (fun l name => (⟨(l, name), "", (), "", ""⟩ : LatencyQuantiles (List Nat × String) Unit))
      List.reverse "uuid" "job" () [[("A", 10), ("B", 20)], [("A", 30)], []] (fun r => r)
      "podLatencyQuantilesMeasurement" (by decide) (fun m => List.reverse_perm m)).1.trans
      (by decide),
   (CalculateQuantiles_sparse
      (fun l name => (⟨(l, name), "", (), "", ""⟩ : LatencyQuantiles (List Nat × String) Unit))
      List.reverse "uuid" "job" () ([] : List (GoMap Nat)) (fun r => r)
      "podLatencyQuantilesMeasurement" (by decide) (fun m => List.reverse_perm m)).2.2⟩

/-- C12: every summary that `CalculateQuantiles` returns carries the `uuid`, `metadata`,
`metricName` and `jobName` of the call, and its other fields are those that `NewLatencySummary`
computed from the latencies and the name of an entry of the condition map. -/
theorem CalculateQuantiles_stamps {R L S M : Type}
    (NewLatencySummary : List L → String → LatencyQuantiles S M)
    (rangeQuantiles : RangeOrder (List L)) (uuid jobName : String) (metadata : M)
    (normLatencies : List R) (getLatency : R → GoMap L) (metricName : String)
    (s : LatencyQuantiles S M)
    (hs : s ∈ CalculateQuantiles NewLatencySummary rangeQuantiles uuid jobName metadata
      normLatencies getLatency metricName) :
    s.UUID = uuid ∧ s.Metadata = metadata ∧ s.MetricName = metricName ∧ s.JobName = jobName ∧
      ∃ entry ∈ rangeQuantiles (buildQuantileMap getLatency normLatencies),
        s.summary = (NewLatencySummary entry.2 entry.1).summary := by
  unfold CalculateQuantiles at hs
  obtain ⟨e, he, rfl⟩ := List.mem_map.1 hs
  exact ⟨rfl, rfl, rfl, rfl, e, he, rfl⟩

/-- C12, evaluated: the summary of condition A of the records `{A:10, B:20}` and `{A:30}`
carries the identity of the call and what `NewLatencySummary` made of `[10, 30]` and "A". -/
theorem CalculateQuantiles_stamps_witness :
    (⟨([10, 30], "A"), "uuid", "meta", "podLatencyQuantilesMeasurement", "job"⟩ :
        LatencyQuantiles (List Nat × String) String).UUID = "uuid" ∧
      (⟨([10, 30], "A"), "uuid", "meta", "podLatencyQuantilesMeasurement", "job"⟩ :
        LatencyQuantiles (List Nat × String) String).Metadata = "meta" ∧
      (⟨([10, 30], "A"), "uuid", "meta", "podLatencyQuantilesMeasurement", "job"⟩ :
        LatencyQuantiles (List Nat × String) String).MetricName =
        "podLatencyQuantilesMeasurement" ∧
      (⟨([10, 30], "A"), "uuid", "meta", "podLatencyQuantilesMeasurement", "job"⟩ :
        LatencyQuantiles (List Nat × String) String).JobName = "job" ∧
      ∃ entry ∈ (fun m => m) (buildQuantileMap (fun r => r)
          [[("A", 10), ("B", 20)], [("A", 30)]]),
        (⟨([10, 30], "A"), "uuid", "meta", "podLatencyQuantilesMeasurement", "job"⟩ :
          LatencyQuantiles (List Nat × String) String).summary =
          ((fun l name => (⟨(l, name), "", "", "", ""⟩ : LatencyQuantiles _ _))
            entry.2 entry.1).summary :=
  CalculateQuantiles_stamps
    (fun l name => (⟨(l, name), "", "", "", ""⟩ : LatencyQuantiles (List Nat × String) String))
    (fun m => m) "uuid" "job" "meta" [[("A", 10), ("B", 20)], [("A", 30)]] (fun r => r)
    "podLatencyQuantilesMeasurement"
    ⟨([10, 30], "A"), "uuid", "meta", "podLatencyQuantilesMeasurement", "job"⟩ (by decide)

/-- C13: two executions of `CalculateQuantiles` on the same input, whatever the order in which
each visits the map of every record (`getLatency₁ r` and `getLatency₂ r` list the same entries)
and the internal condition map (`rangeQuantiles₁`, `rangeQuantiles₂`), return slices that are
permutations of each other, and the list of values summarised for every condition is the same
in both. -/
theorem CalculateQuantiles_deterministic {R L S M : Type}
    (NewLatencySummary : List L → String → LatencyQuantiles S M)
    (rangeQuantiles₁ rangeQuantiles₂ : RangeOrder (List L)) (uuid jobName : String)
    (metadata : M) (normLatencies : List R) (getLatency₁ getLatency₂ : R → GoMap L)
    (metricName : String)
    (hmaps : ∀ r ∈ normLatencies, (getLatency₁ r).WellFormed)
    (horder : ∀ r ∈ normLatencies, (getLatency₁ r).Perm (getLatency₂ r))
    (hvalid₁ : rangeQuantiles₁.Valid) (hvalid₂ : rangeQuantiles₂.Valid) :
    (CalculateQuantiles NewLatencySummary rangeQuantiles₁ uuid jobName metadata normLatencies
        getLatency₁ metricName).Perm
      (CalculateQuantiles NewLatencySummary rangeQuantiles₂ uuid jobName metadata normLatencies
        getLatency₂ metricName) ∧
    ∀ c, observedValues getLatency₁ normLatencies c =
      observedValues getLatency₂ normLatencies c := by
  have hmaps₂ : ∀ r ∈ normLatencies, (getLatency₂ r).WellFormed := fun r hr =>
    (((horder r hr).map Prod.fst).nodup_iff).1 (hmaps r hr)
  have hvals : ∀ c, observedValues getLatency₁ normLatencies c =
      observedValues getLatency₂ normLatencies c := by
    intro c
    unfold observedValues
    exact List.filterMap_congr (fun r hr => find_perm _ _ c (horder r hr) (hmaps r hr))
  have hobs : ∀ c, Observed getLatency₁ normLatencies c ↔
      Observed getLatency₂ normLatencies c := by
    intro c
    constructor
    · rintro ⟨r, hr, hc⟩
      exact ⟨r, hr, (((horder r hr).map Prod.fst).mem_iff).1 hc⟩
    · rintro ⟨r, hr, hc⟩
      exact ⟨r, hr, (((horder r hr).map Prod.fst).mem_iff).2 hc⟩
  obtain ⟨conds₁, hnd₁, hmem₁, heq₁⟩ := CalculateQuantiles_eq_map NewLatencySummary
    rangeQuantiles₁ uuid jobName metadata normLatencies getLatency₁ metricName hmaps hvalid₁
  obtain ⟨conds₂, hnd₂, hmem₂, heq₂⟩ := CalculateQuantiles_eq_map NewLatencySummary
    rangeQuantiles₂ uuid jobName metadata normLatencies getLatency₂ metricName hmaps₂ hvalid₂
  have hperm : conds₁.Perm conds₂ :=
    (List.perm_ext_iff_of_nodup hnd₁ hnd₂).2 (fun c =>
      (hmem₁ c).trans ((hobs c).trans (hmem₂ c).symm))
  refine ⟨?_, hvals⟩
  rw [heq₁, heq₂]
  have hfun : (fun c => calcSummary NewLatencySummary uuid jobName metadata metricName c
      (observedValues getLatency₁ normLatencies c)) =
      (fun c => calcSummary NewLatencySummary uuid jobName metadata metricName c
        (observedValues getLatency₂ normLatencies c)) := by
    funext c
    rw [hvals c]
  rw [hfun]
  exact hperm.map _

/-- C13, evaluated: the records `{A:10, B:20}` and `{A:30}`, a first execution visiting every
map in the order of its list and a second one in the reverse order. -/
theorem CalculateQuantiles_deterministic_witness :
    (CalculateQuantiles (fun l name => (⟨(l, name), "", (), "", ""⟩ : LatencyQuantiles _ _))
        (fun m => m) "uuid" "job" () [[("A", 10), ("B", 20)], [("A", 30)]] (fun r => r)
        "podLatencyQuantilesMeasurement").Perm
      (CalculateQuantiles (fun l name => (⟨(l, name), "", (), "", ""⟩ : LatencyQuantiles _ _))
        List.reverse "uuid" "job" () [[("A", 10), ("B", 20)], [("A", 30)]] List.reverse
        "podLatencyQuantilesMeasurement") ∧
    ∀ c, observedValues (fun r => r) [[("A", 10), ("B", 20)], [("A", 30)]] c =
      observedValues List.reverse [[("A", 10), ("B", 20)], [("A", 30)]] c :=
  CalculateQuantiles_deterministic
    (fun l name => (⟨(l, name), "", (), "", ""⟩ : LatencyQuantiles (List Nat × String) Unit))
    (fun m => m) List.reverse "uuid" "job" () [[("A", 10), ("B", 20)], [("A", 30)]]
    (fun r => r) List.reverse "podLatencyQuantilesMeasurement" (by decide)
    (fun r _ => (List.reverse_perm r).symm) (fun m => List.Perm.refl m)
    (fun m => List.reverse_perm m)

/-- C15: every entry of the condition map that `CalculateQuantiles` builds holds at least one
value, so does every entry that the second loop visits, and the summaries returned are those
that `calcSummary`, hence `NewLatencySummary`, computes from the visited entries: no summary
is computed over zero observations. -/
theorem CalculateQuantiles_nonempty_inputs {R L S M : Type}
    (NewLatencySummary : List L → String → LatencyQuantiles S M)
    (rangeQuantiles : RangeOrder (List L)) (uuid jobName : String) (metadata : M)
    (normLatencies : List R) (getLatency : R → GoMap L) (metricName : String)
    (hvalid : rangeQuantiles.Valid) :
    (∀ entry ∈ buildQuantileMap getLatency normLatencies, entry.2 ≠ []) ∧
    (∀ entry ∈ rangeQuantiles (buildQuantileMap getLatency normLatencies), entry.2 ≠ []) ∧
    CalculateQuantiles NewLatencySummary rangeQuantiles uuid jobName metadata normLatencies
        getLatency metricName =
      (rangeQuantiles (buildQuantileMap getLatency normLatencies)).map (fun entry =>
        { NewLatencySummary entry.2 entry.1 with
          UUID := uuid, Metadata := metadata, MetricName := metricName, JobName := jobName }) :=
  ⟨nonempty_buildQuantileMap getLatency normLatencies,
   fun entry he => nonempty_buildQuantileMap getLatency normLatencies entry
     ((hvalid (buildQuantileMap getLatency normLatencies)).mem_iff.1 he),
   rfl⟩

/-- C15, evaluated: the records `{A:10, B:20}`, `{}` and `{A:30}`; the two entries of the
condition map are non-empty. -/
theorem CalculateQuantiles_nonempty_inputs_witness :
    (∀ entry ∈ buildQuantileMap (fun r => r) [[("A", 10), ("B", 20)], [], [("A", 30)]],
      entry.2 ≠ []) ∧
    buildQuantileMap (fun r => r) [[("A", 10), ("B", 20)], [], [("A", 30)]] =
      [("A", [10, 30]), ("B", [20])] :=
  ⟨(CalculateQuantiles_nonempty_inputs
      (fun l name => (⟨(l, name), "", (), "", ""⟩ : LatencyQuantiles (List Nat × String) Unit))
      List.reverse "uuid" "job" () [[("A", 10), ("B", 20)], [], [("A", 30)]] (fun r => r)
      "podLatencyQuantilesMeasurement" (fun m => List.reverse_perm m)).1,
   by decide⟩

/-! ## The factory: claim -/

/-- C14: the instance that a factory built from `runConfig`, `measurement` and `metadata`
derives for `(jobConfig, clientSet, restConfig)` holds exactly these seven values; two instances
derived from the same factory agree on `Config`, `Uuid`, `Runid` and `Metadata` whatever their
job bindings; and the factory from which an instance has been derived still holds the values it
was built with. -/
theorem NewBaseLatency_fields {M J C K : Type} (runConfig : Spec) (measurement : Measurement)
    (metadata : M) (jobConfig jobConfig' : J) (clientSet clientSet' : C)
    (restConfig restConfig' : K) :
    (NewBaseMeasurementFactory runConfig measurement metadata).NewBaseLatency jobConfig
        clientSet restConfig =
      { Config := measurement
        Uuid := runConfig.GlobalConfig.UUID
        Runid := runConfig.GlobalConfig.RUNID
        JobConfig := jobConfig
        ClientSet := clientSet
        RestConfig := restConfig
        Metadata := metadata } ∧
    (((NewBaseMeasurementFactory runConfig measurement metadata).NewBaseLatency jobConfig
          clientSet restConfig).Config =
        ((NewBaseMeasurementFactory runConfig measurement metadata).NewBaseLatency jobConfig'
          clientSet' restConfig').Config ∧
      ((NewBaseMeasurementFactory runConfig measurement metadata).NewBaseLatency jobConfig
          clientSet restConfig).Uuid =
        ((NewBaseMeasurementFactory runConfig measurement metadata).NewBaseLatency jobConfig'
          clientSet' restConfig').Uuid ∧
      ((NewBaseMeasurementFactory runConfig measurement metadata).NewBaseLatency jobConfig
          clientSet restConfig).Runid =
        ((NewBaseMeasurementFactory runConfig measurement metadata).NewBaseLatency jobConfig'
          clientSet' restConfig').Runid ∧
      ((NewBaseMeasurementFactory runConfig measurement metadata).NewBaseLatency jobConfig
          clientSet restConfig).Metadata =
        ((NewBaseMeasurementFactory runConfig measurement metadata).NewBaseLatency jobConfig'
          clientSet' restConfig').Metadata) ∧
    NewBaseMeasurementFactory runConfig measurement metadata =
      { Config := measurement
        Uuid := runConfig.GlobalConfig.UUID
        Runid := runConfig.GlobalConfig.RUNID
        Metadata := metadata } :=
  ⟨rfl, ⟨rfl, rfl, rfl, rfl⟩, rfl⟩

/-! ## The router: writers -/

/-- C16, as stated, fails in its second part: the time-series indexer name "ts" is not a key
of the registry and `metricMap` has a raw pod-latency key; `Index` is called on the nil lookup
result and `IndexLatencyMeasurement` does not complete.  The same happens when the name is a
key of the registry under which nil is stored. -/
theorem IndexLatencyMeasurement_missing_name_counterexample :
    (⟨[], "ts", ""⟩ : Measurement).TimeseriesIndexer ≠ "" ∧
      GoMap.has [("es", some 0), ("local", some 1)] "ts" = false ∧
      (IndexLatencyMeasurement sampleNames (fun _ _ _ => ("created", none)) (fun _ m => m)
        ⟨[], "ts", ""⟩ "job" [("podLatencyMeasurement", [1, 2]), ("custom", [3])]
        [("es", some 0), ("local", some 1)]).completed = false ∧
      (IndexLatencyMeasurement sampleNames (fun _ _ _ => ("created", none)) (fun _ m => m)
        ⟨[], "es", ""⟩ "job" [("podLatencyMeasurement", [1])]
        [("es", (none : Option Nat))]).completed = false := by
  decide

/-- C16, amended: every `Index` call that `IndexLatencyMeasurement` makes is made on a writer
stored in the registry under some name, in every run; and the call completes normally when
every interface value on which the routing calls `Index` for a key of `metricMap` is a writer
and not nil (`Resolved`). -/
theorem IndexLatencyMeasurement_writers_registered {W D : Type} (names : MetricNames)
    (respond : W → List D → IndexingOpts → String × Option String)
    (rangeIndexers : String → RangeOrder (Option W)) (config : Measurement) (jobName : String)
    (metricMap : GoMap (List D)) (indexerList : GoMap (Option W))
    (hvalid : ∀ m, (rangeIndexers m).Valid) :
    (∀ c ∈ indexCalls (IndexLatencyMeasurement names respond rangeIndexers config jobName
        metricMap indexerList).trace, ∃ name, (name, some c.writer) ∈ indexerList) ∧
    (Resolved names config metricMap indexerList →
      (IndexLatencyMeasurement names respond rangeIndexers config jobName metricMap
        indexerList).completed = true) := by
  refine ⟨?_, fun hres => (IndexLatencyMeasurement_of_resolved names respond rangeIndexers
    config jobName metricMap indexerList hvalid hres).1⟩
  intro c hc
  have hpre := (IndexLatencyMeasurement_calls_initial names respond rangeIndexers config jobName
    metricMap indexerList).subset hc
  obtain ⟨e, _, hce⟩ := List.mem_flatMap.1 hpre
  obtain ⟨w, hw, rfl⟩ := mem_expectedCalls names rangeIndexers config jobName indexerList e c hce
  show ∃ name, (name, some w) ∈ indexerList
  unfold selectedWriters at hw
  split at hw
  · exact ⟨_, mem_of_lookupIndexer indexerList _ w (List.mem_singleton.1 hw).symm⟩
  · split at hw
    · exact ⟨_, mem_of_lookupIndexer indexerList _ w (List.mem_singleton.1 hw).symm⟩
    · obtain ⟨entry, hentry, hsnd⟩ := List.mem_map.1 hw
      refine ⟨entry.1, ?_⟩
      rw [← hsnd]
      exact (hvalid e.1 indexerList).mem_iff.1 hentry

/-- C16 amended, evaluated: the registry stores a writer under "es" and nil under "spare";
the only key is a raw pod-latency one, routed to "es": the call is made on the writer stored
under "es", and the call completes. -/
theorem IndexLatencyMeasurement_writers_registered_witness :
    (∃ name, (name, some "es-writer") ∈ [("es", some "es-writer"), ("spare", none)]) ∧
      (IndexLatencyMeasurement sampleNames (fun _ _ _ => ("created", none)) (fun _ m => m)
        ⟨[], "es", "local"⟩ "job" [("podLatencyMeasurement", [1, 2])]
        [("es", some "es-writer"), ("spare", none)]).completed = true :=
  have h := IndexLatencyMeasurement_writers_registered sampleNames
    (fun _ _ _ => ("created", none)) (fun _ m => m) ⟨[], "es", "local"⟩ "job"
    [("podLatencyMeasurement", [1, 2])] [("es", some "es-writer"), ("spare", none)]
    (fun _ m => List.Perm.refl m)
  ⟨h.1 ⟨"es-writer", [1, 2], ⟨"podLatencyMeasurement-job"⟩⟩ (by decide), h.2 (by decide)⟩

/-! ## Label parsing: claim -/

/-- C18: `getIntFromLabels` always returns a value: the integer `n` when the key is present
and `strconv.Atoi` parses its value as `n` without error, and 0 when the key is absent or
`strconv.Atoi` reports an error; so, `strconv.Atoi` parsing "0" as 0, an absent or malformed
label gives the same result as the label value "0". -/
theorem getIntFromLabels_total (atoi : String → Int × Option String) (labels : GoMap String)
    (key : String) :
    (∀ strVal n, labels.find key = some strVal → atoi strVal = (n, none) →
      getIntFromLabels atoi labels key = n) ∧
    (labels.find key = none → getIntFromLabels atoi labels key = 0) ∧
    (∀ strVal val err, labels.find key = some strVal → atoi strVal = (val, some err) →
      getIntFromLabels atoi labels key = 0) ∧
    (atoi "0" = (0, none) →
      (labels.find key = none ∨
        ∃ strVal val err, labels.find key = some strVal ∧ atoi strVal = (val, some err)) →
      getIntFromLabels atoi labels key = getIntFromLabels atoi [(key, "0")] key) := by
  have habsent : labels.find key = none → getIntFromLabels atoi labels key = 0 := by
    intro h
    simp [getIntFromLabels, h]
  have hbad : ∀ strVal val err, labels.find key = some strVal →
      atoi strVal = (val, some err) → getIntFromLabels atoi labels key = 0 := by
    intro strVal val err h ha
    simp [getIntFromLabels, h, ha]
  refine ⟨?_, habsent, hbad, ?_⟩
  · intro strVal n h ha
    simp [getIntFromLabels, h, ha]
  · intro h0 hcase
    have hzero : getIntFromLabels atoi [(key, "0")] key = 0 := by
      simp [getIntFromLabels, GoMap.find, h0]
    rw [hzero]
    rcases hcase with h | ⟨strVal, val, err, h, ha⟩
    · exact habsent h
    · exact hbad strVal val err h ha

/-- C18, evaluated with `Atoi`: the label "replicas" is "12", the label "broken" is "1x" and
the label "absent" does not exist. -/
theorem getIntFromLabels_total_witness :
    getIntFromLabels Atoi [("replicas", "12"), ("broken", "1x")] "replicas" = 12 ∧
      getIntFromLabels Atoi [("replicas", "12"), ("broken", "1x")] "absent" = 0 ∧
      getIntFromLabels Atoi [("replicas", "12"), ("broken", "1x")] "broken" =
        getIntFromLabels Atoi [("broken", "0")] "broken" :=
  ⟨(getIntFromLabels_total Atoi [("replicas", "12"), ("broken", "1x")] "replicas").1 "12" 12
      (by decide) (by decide),
   (getIntFromLabels_total Atoi [("replicas", "12"), ("broken", "1x")] "absent").2.1
      (by decide),
   (getIntFromLabels_total Atoi [("replicas", "12"), ("broken", "1x")] "broken").2.2.2
      (by decide) (Or.inr ⟨"1x", 0, "invalid syntax", by decide, by decide⟩)⟩

/-! ## Pod deployment: claim -/

theorem pollPod_eq_some_iff (gets : Nat → GetResult) (fuel i : Nat) (r : Option ApiError) :
    pollPod gets fuel i = some r ↔
      ∃ k, k < fuel ∧
        (∀ j, j < k → ∃ phase, gets (i + j) = GetResult.pod phase ∧ phase ≠ PodPhase.Running) ∧
        ((r = none ∧ gets (i + k) = GetResult.pod PodPhase.Running) ∨
          ∃ err, r = some err ∧ gets (i + k) = GetResult.failed err) := by
  induction fuel generalizing i with
  | zero => simp [pollPod]
  | succ fuel ih =>
    cases hg : gets i with
    | failed err =>
      simp only [pollPod, podRunning, hg, Option.some.injEq]
      constructor
      · intro h
        exact ⟨0, Nat.succ_pos _, fun j hj => absurd hj (Nat.not_lt_zero j),
          Or.inr ⟨err, h.symm, by simpa using hg⟩⟩
      · rintro ⟨k, _, hpend, hk⟩
        cases k with
        | zero =>
          rw [Nat.add_zero, hg] at hk
          rcases hk with ⟨_, h⟩ | ⟨e, he, h⟩
          · cases h
          · cases h
            exact he.symm
        | succ k =>
          obtain ⟨phase, h, _⟩ := hpend 0 (Nat.succ_pos _)
          rw [Nat.add_zero, hg] at h
          cases h
    | pod phase =>
      by_cases hph : phase = PodPhase.Running
      · subst hph
        simp only [pollPod, podRunning, hg, ne_eq, not_true_eq_false, if_false,
          Option.some.injEq]
        constructor
        · intro h
          exact ⟨0, Nat.succ_pos _, fun j hj => absurd hj (Nat.not_lt_zero j),
            Or.inl ⟨h.symm, by simpa using hg⟩⟩
        · rintro ⟨k, _, hpend, hk⟩
          cases k with
          | zero =>
            rw [Nat.add_zero, hg] at hk
            rcases hk with ⟨hr, _⟩ | ⟨e, _, h⟩
            · exact hr.symm
            · cases h
          | succ k =>
            obtain ⟨phase, h, hne⟩ := hpend 0 (Nat.succ_pos _)
            rw [Nat.add_zero, hg] at h
            cases h
            exact absurd rfl hne
      · simp only [pollPod, podRunning, hg, ne_eq, hph, not_false_eq_true, if_true]
        rw [ih (i + 1)]
        constructor
        · rintro ⟨k, hk, hpend, hend⟩
          refine ⟨k + 1, Nat.succ_lt_succ hk, ?_, ?_⟩
          · intro j hj
            cases j with
            | zero => exact ⟨phase, by simpa using hg, hph⟩
            | succ j =>
              have := hpend j (Nat.lt_of_succ_lt_succ hj)
              rwa [Nat.add_assoc, Nat.add_comm 1 j] at this
          · rwa [Nat.add_assoc, Nat.add_comm 1 k] at hend
        · rintro ⟨k, hk, hpend, hend⟩
          cases k with
          | zero =>
            rw [Nat.add_zero, hg] at hend
            rcases hend with ⟨_, h⟩ | ⟨e, _, h⟩
            · cases h
              exact absurd rfl hph
            · cases h
          | succ k =>
            refine ⟨k, Nat.lt_of_succ_lt_succ hk, ?_, ?_⟩
            · intro j hj
              have := hpend (j + 1) (Nat.succ_lt_succ hj)
              rwa [Nat.add_assoc, Nat.add_comm 1 j]
            · rwa [Nat.add_assoc, Nat.add_comm 1 k]

/-- C17, as stated, fails: namespace creation succeeds, pod creation returns an error for which
`errors.IsAlreadyExists` holds, and the first `Get` shows the pod in phase Running;
`deployPodInNamespace` returns nil although a cluster API call returned an error, and pod
creation did not succeed. -/
theorem deployPodInNamespace_counterexample :
    (∃ err, (some ⟨"pods \"probe\" already exists", true⟩ : Option ApiError) = some err) ∧
      deployPodInNamespace none (some ⟨"pods \"probe\" already exists", true⟩)
        (fun _ => GetResult.pod PodPhase.Running) 1 = some none := by
  refine ⟨⟨_, rfl⟩, ?_⟩
  decide

/-- C17, amended: an error of namespace creation, an error of pod creation other than
already-exists, and an error of the first `Get` that ends the polling are each returned to the
caller; and `deployPodInNamespace` returns nil exactly when namespace creation succeeded, pod
creation succeeded or failed with already-exists, and after polls that showed the pod in
another phase a `Get` showed it in phase Running. -/
theorem deployPodInNamespace_errors (createNamespace createPod : Option ApiError)
    (gets : Nat → GetResult) (fuel : Nat) :
    (∀ err, createNamespace = some err →
      deployPodInNamespace createNamespace createPod gets fuel = some (some err)) ∧
    (∀ err, createNamespace = none → createPod = some err → err.isAlreadyExists = false →
      deployPodInNamespace createNamespace createPod gets fuel = some (some err)) ∧
    (∀ k err, createNamespace = none →
      (∀ e, createPod = some e → e.isAlreadyExists = true) →
      k < fuel → gets k = GetResult.failed err →
      (∀ j, j < k → ∃ phase, gets j = GetResult.pod phase ∧ phase ≠ PodPhase.Running) →
      deployPodInNamespace createNamespace createPod gets fuel = some (some err)) ∧
    (deployPodInNamespace createNamespace createPod gets fuel = some none ↔
      createNamespace = none ∧ (∀ e, createPod = some e → e.isAlreadyExists = true) ∧
        ∃ k, k < fuel ∧ gets k = GetResult.pod PodPhase.Running ∧
          ∀ j, j < k → ∃ phase, gets j = GetResult.pod phase ∧ phase ≠ PodPhase.Running) := by
  have hpoll : createNamespace = none → (∀ e, createPod = some e → e.isAlreadyExists = true) →
      deployPodInNamespace createNamespace createPod gets fuel = pollPod gets fuel 0 := by
    intro hns hpod
    subst hns
    cases createPod with
    | none => rfl
    | some e => simp [deployPodInNamespace, hpod e rfl]
  refine ⟨?_, ?_, ?_, ?_⟩
  · intro err h
    subst h
    rfl
  · intro err hns hpod hex
    subst hns hpod
    simp [deployPodInNamespace, hex]
  · intro k err hns hpod hk hget hpend
    rw [hpoll hns hpod, pollPod_eq_some_iff]
    exact ⟨k, hk, fun j hj => by simpa using hpend j hj, Or.inr ⟨err, rfl, by simpa using hget⟩⟩
  · constructor
    · intro h
      cases hns : createNamespace with
      | some err =>
        subst hns
        simp [deployPodInNamespace] at h
      | none =>
        have hpod : ∀ e, createPod = some e → e.isAlreadyExists = true := by
          intro e he
          subst hns he
          cases hex : e.isAlreadyExists with
          | true => rfl
          | false => simp [deployPodInNamespace, hex] at h
        rw [hpoll hns hpod, pollPod_eq_some_iff] at h
        obtain ⟨k, hk, hpend, hend⟩ := h
        refine ⟨rfl, hpod, k, hk, ?_, fun j hj => by simpa using hpend j hj⟩
        rcases hend with ⟨_, hrun⟩ | ⟨e, he, _⟩
        · simpa using hrun
        · cases he
    · rintro ⟨hns, hpod, k, hk, hrun, hpend⟩
      rw [hpoll hns hpod, pollPod_eq_some_iff]
      exact ⟨k, hk, fun j hj => by simpa using hpend j hj, Or.inl ⟨rfl, by simpa using hrun⟩⟩

/-- C17 amended, evaluated: namespace and pod are created, the pod is Pending at the first
poll and the second `Get` fails; that error is returned. -/
theorem deployPodInNamespace_errors_witness :
    deployPodInNamespace none none
        (fun i => if i = 0 then GetResult.pod PodPhase.Pending
          else GetResult.failed ⟨"connection refused", false⟩) 5 =
      some (some ⟨"connection refused", false⟩) :=
  (deployPodInNamespace_errors none none
    (fun i => if i = 0 then GetResult.pod PodPhase.Pending
      else GetResult.failed ⟨"connection refused", false⟩) 5).2.2.1 1
    ⟨"connection refused", false⟩ rfl (fun e he => by cases he) (by decide) (by decide)
    (fun j hj => ⟨PodPhase.Pending, by
      have : j = 0 := by omega
      subst this
      decide, by decide⟩)

end Measurements
